import Mathlib

/-!
Verification of the format-conversion layer of the sec-certs page
(`src/sec_certs_page/common/objformats.py`).

The Python value universe that the conversion functions walk over is
embedded shallowly as the inductive type `Doc`:

* `null / bool / int / str / date`: the scalar kinds that occur in the
  documents (floats are not used by the claims under study);
* `path`: a `pathlib.Path` value, carrying its string form;
* `symbol`: a `jsondiff` `Symbol` sentinel, carrying its label;
* `list`: a Python list;
* `dict hd kvs`: a Python dict in insertion order; `hd = true` marks a
  `hashdict` (the `dict` subclass of the source whose `__hash__` reads
  the `"_hash"` entry), `hd = false` a plain `dict`;
* `set / fset`: a Python `set` / `frozenset`; the element list records
  the iteration order, sets are deduplicated on construction;
* `inst tag fields`: a live domain object (a `ComplexSerializableType`
  instance) with its registered tag and its field mapping.

Dictionary keys are either strings or `Symbol` sentinels (`Key`).
Fallible Python code (KeyError / TypeError / AttributeError) is embedded
with `Except PyErr`.
-/

inductive Key where
  | str (s : String)
  | symbol (label : String)
deriving DecidableEq

inductive Doc where
  | null
  | bool (b : Bool)
  | int (n : Int)
  | str (s : String)
  | date (y m d : Nat)
  | path (s : String)
  | symbol (label : String)
  | list (xs : List Doc)
  | dict (hd : Bool) (kvs : List (Key × Doc))
  | set (xs : List Doc)
  | fset (xs : List Doc)
  | inst (tag : String) (fields : List (String × Doc))

inductive PyErr where
  | keyError (k : String)
  | typeError
  | attributeError
deriving DecidableEq

/-! Boolean equality on `Doc`, mirroring Python `==` on the embedded
values (structural equality), together with its lawfulness proof and the
resulting `DecidableEq` instance. -/

mutual

def Doc.beq : Doc → Doc → Bool
  | .null, .null => true
  | .bool a, .bool b => a == b
  | .int a, .int b => a == b
  | .str a, .str b => a == b
  | .date y1 m1 d1, .date y2 m2 d2 => y1 == y2 && m1 == m2 && d1 == d2
  | .path a, .path b => a == b
  | .symbol a, .symbol b => a == b
  | .list xs, .list ys => Doc.beqList xs ys
  | .dict h1 k1, .dict h2 k2 => h1 == h2 && Doc.beqKVs k1 k2
  | .set xs, .set ys => Doc.beqList xs ys
  | .fset xs, .fset ys => Doc.beqList xs ys
  | .inst t1 f1, .inst t2 f2 => t1 == t2 && Doc.beqSFs f1 f2
  | _, _ => false
termination_by structural a _ => a

def Doc.beqList : List Doc → List Doc → Bool
  | [], [] => true
  | x :: xs, y :: ys => Doc.beq x y && Doc.beqList xs ys
  | _, _ => false
termination_by structural a _ => a

def Doc.beqKVs : List (Key × Doc) → List (Key × Doc) → Bool
  | [], [] => true
  | (k1, v1) :: xs, (k2, v2) :: ys => k1 == k2 && Doc.beq v1 v2 && Doc.beqKVs xs ys
  | _, _ => false
termination_by structural a _ => a

def Doc.beqSFs : List (String × Doc) → List (String × Doc) → Bool
  | [], [] => true
  | (k1, v1) :: xs, (k2, v2) :: ys => k1 == k2 && Doc.beq v1 v2 && Doc.beqSFs xs ys
  | _, _ => false
termination_by structural a _ => a

end

theorem doc_strongInd (P : Doc → Prop)
    (step : ∀ d, (∀ e : Doc, sizeOf e < sizeOf d → P e) → P d) : ∀ d, P d := by
  have key : ∀ n (d : Doc), sizeOf d < n → P d := by
    intro n
    induction n with
    | zero => intro d h; omega
    | succ n ih => exact fun d h => step d (fun e he => ih e (by omega))
  exact fun d => key (sizeOf d + 1) d (by omega)

theorem sizeOf_lt_of_mem_list {x : Doc} {xs : List Doc} (h : x ∈ xs) :
    sizeOf x < sizeOf xs := List.sizeOf_lt_of_mem h

theorem sizeOf_snd_lt_of_mem_kvs {k : Key} {v : Doc} {kvs : List (Key × Doc)}
    (h : (k, v) ∈ kvs) : sizeOf v < sizeOf kvs := by
  have h1 : sizeOf (k, v) ≤ sizeOf kvs := Nat.le_of_lt (List.sizeOf_lt_of_mem h)
  have h2 := Prod.mk.sizeOf_spec k v
  omega

theorem sizeOf_snd_lt_of_mem_sfs {k : String} {v : Doc} {fs : List (String × Doc)}
    (h : (k, v) ∈ fs) : sizeOf v < sizeOf fs := by
  have h1 : sizeOf (k, v) ≤ sizeOf fs := Nat.le_of_lt (List.sizeOf_lt_of_mem h)
  have h2 := Prod.mk.sizeOf_spec k v
  omega

theorem beqList_iff_eq {xs : List Doc}
    (ih : ∀ x ∈ xs, ∀ b, Doc.beq x b = true ↔ x = b) :
    ∀ ys, Doc.beqList xs ys = true ↔ xs = ys := by
  induction xs with
  | nil => intro ys; cases ys <;> simp [Doc.beqList]
  | cons x xs ihl =>
    intro ys
    cases ys with
    | nil => simp [Doc.beqList]
    | cons y ys =>
      have h1 := ih x (by simp) y
      have h2 := ihl (fun z hz b => ih z (by simp [hz]) b) ys
      simp [Doc.beqList, h1, h2]

theorem beqKVs_iff_eq {xs : List (Key × Doc)}
    (ih : ∀ kv ∈ xs, ∀ b, Doc.beq kv.2 b = true ↔ kv.2 = b) :
    ∀ ys, Doc.beqKVs xs ys = true ↔ xs = ys := by
  induction xs with
  | nil => intro ys; cases ys <;> simp [Doc.beqKVs]
  | cons kv xs ihl =>
    intro ys
    obtain ⟨k, v⟩ := kv
    cases ys with
    | nil => simp [Doc.beqKVs]
    | cons kw ys =>
      obtain ⟨k2, v2⟩ := kw
      have h1 := ih (k, v) (by simp) v2
      have h2 := ihl (fun z hz b => ih z (by simp [hz]) b) ys
      simp [Doc.beqKVs, h1, h2, and_assoc]

theorem beqSFs_iff_eq {xs : List (String × Doc)}
    (ih : ∀ kv ∈ xs, ∀ b, Doc.beq kv.2 b = true ↔ kv.2 = b) :
    ∀ ys, Doc.beqSFs xs ys = true ↔ xs = ys := by
  induction xs with
  | nil => intro ys; cases ys <;> simp [Doc.beqSFs]
  | cons kv xs ihl =>
    intro ys
    obtain ⟨k, v⟩ := kv
    cases ys with
    | nil => simp [Doc.beqSFs]
    | cons kw ys =>
      obtain ⟨k2, v2⟩ := kw
      have h1 := ih (k, v) (by simp) v2
      have h2 := ihl (fun z hz b => ih z (by simp [hz]) b) ys
      simp [Doc.beqSFs, h1, h2, and_assoc]

theorem Doc.beq_iff_eq : ∀ a b : Doc, Doc.beq a b = true ↔ a = b := by
  refine doc_strongInd _ ?_
  intro a ih b
  cases a <;> cases b <;>
    simp only [Doc.beq, Bool.and_eq_true, beq_iff_eq] <;>
    try simp [and_assoc]
  case list.list xs ys =>
    exact (beqList_iff_eq
      (fun x hx b => ih x (by simp; have := sizeOf_lt_of_mem_list hx; omega) b) ys).trans
      (by simp)
  case dict.dict h1 k1 h2 k2 =>
    intro _
    exact beqKVs_iff_eq
      (fun kv hkv b => ih kv.2
        (by
          have := sizeOf_snd_lt_of_mem_kvs (k := kv.1) (v := kv.2) (by simpa using hkv)
          simp; omega) b) k2
  case set.set xs ys =>
    exact (beqList_iff_eq
      (fun x hx b => ih x (by simp; have := sizeOf_lt_of_mem_list hx; omega) b) ys).trans
      (by simp)
  case fset.fset xs ys =>
    exact (beqList_iff_eq
      (fun x hx b => ih x (by simp; have := sizeOf_lt_of_mem_list hx; omega) b) ys).trans
      (by simp)
  case inst.inst t1 f1 t2 f2 =>
    intro _
    exact beqSFs_iff_eq
      (fun kv hkv b => ih kv.2
        (by
          have := sizeOf_snd_lt_of_mem_sfs (k := kv.1) (v := kv.2) (by simpa using hkv)
          simp; omega) b) f2

instance : DecidableEq Doc := fun a b =>
  decidable_of_iff (Doc.beq a b = true) (Doc.beq_iff_eq a b)

/-! ### Python container helpers

`lookupKV`, `insertKV`, `eraseKey` model `d[k]`, `d[k] = v` and
`d.pop(k)` on insertion-ordered dicts: assignment to a present key keeps
its position, a fresh key is appended; `pop` removes the (unique)
occurrence. -/

def lookupKV : List (Key × Doc) → Key → Option Doc
  | [], _ => none
  | (k, v) :: rest, k0 => if k = k0 then some v else lookupKV rest k0

def insertKV : List (Key × Doc) → Key → Doc → List (Key × Doc)
  | [], k, v => [(k, v)]
  | (k0, v0) :: rest, k, v =>
    if k0 = k then (k0, v) :: rest else (k0, v0) :: insertKV rest k v

def eraseKey : List (Key × Doc) → Key → List (Key × Doc)
  | [], _ => []
  | (k0, v0) :: rest, k =>
    if k0 = k then rest else (k0, v0) :: eraseKey rest k

/-- No key occurs twice (every real Python dict satisfies this). -/
def keyNodupB : List (Key × Doc) → Bool
  | [] => true
  | (k, _) :: rest => !((rest.map Prod.fst).contains k) && keyNodupB rest

/-- No field name occurs twice. -/
def sfNodupB : List (String × Doc) → Bool
  | [] => true
  | (k, _) :: rest => !((rest.map Prod.fst).contains k) && sfNodupB rest

/-- No element occurs twice (every real Python set iterates this way). -/
def nodupB : List Doc → Bool
  | [] => true
  | x :: xs => !(xs.contains x) && nodupB xs

/-- First-occurrence deduplication: the model of the element order
obtained when `set()` inserts the elements one by one. -/
def pyDedupAux (seen : List Doc) : List Doc → List Doc
  | [] => []
  | x :: xs =>
    if x ∈ seen then pyDedupAux seen xs else x :: pyDedupAux (seen ++ [x]) xs

def pyDedup (xs : List Doc) : List Doc := pyDedupAux [] xs

/-- A dict key as the Python object it is (used when iterating a dict). -/
def keyToDoc : Key → Doc
  | .str s => .str s
  | .symbol l => .symbol l

/-- Python iteration over a value: lists/sets/frozensets yield their
elements, strings their characters, dicts their keys; other values are
not iterable (`TypeError`). -/
def pyIter : Doc → Except PyErr (List Doc)
  | .list xs => .ok xs
  | .set xs => .ok xs
  | .fset xs => .ok xs
  | .str s => .ok (s.data.map (fun c => Doc.str (String.mk [c])))
  | .dict _ kvs => .ok (kvs.map (fun kv => keyToDoc kv.1))
  | _ => .error .typeError

/-! ### The type registry

Modelled from the spec: the domain-type side of the registry
(`ComplexSerializableType` of `sec_certs.serialization.json`, not under
`src/`) is described in spec §4.1/§6 as a map from a tag to a descriptor
with an encode operation (`to_dict`, producing the field mapping), a
decode operation (`from_dict`, accepting the mapping with the tag
stripped and reconstructing the instance) and an optional identity-hash
operation.  `tags` is the set of registered tag strings,
`instHashable t` says whether the domain type tagged `t` supports
identity hashing (Python: whether `hash()` succeeds on its instances),
and `instHash t fields` is the computed identity hash. -/
structure TypeRegistry where
  tags : List String
  instHashable : String → Bool
  instHash : String → List (String × Doc) → Int

/-- Model of CPython's hash of a `pathlib.Path`: a deterministic
function of the path string (its concrete value is irrelevant to the
claims, only its determinism). -/
def pathHash (s : String) : Int :=
  Int.ofNat (s.data.foldl (fun a c => a * 31 + c.toNat) 7)

mutual

/-- Python hashability of a value: scalars, paths and symbols are
hashable; lists, sets and plain dicts are not; a `frozenset` is hashable
when its elements are; a `hashdict` is hashable exactly when its
`__hash__` succeeds, i.e. when it has an integer `"_hash"` entry; an
instance is hashable when its class supports hashing. -/
def pyHashable (reg : TypeRegistry) : Doc → Bool
  | .null => true
  | .bool _ => true
  | .int _ => true
  | .str _ => true
  | .date _ _ _ => true
  | .path _ => true
  | .symbol _ => true
  | .list _ => false
  | .set _ => false
  | .dict hd kvs =>
    hd && (match lookupKV kvs (Key.str "_hash") with
           | some (.int _) => true
           | _ => false)
  | .fset xs => pyHashableList reg xs
  | .inst t _ => reg.instHashable t
termination_by structural d => d

def pyHashableList (reg : TypeRegistry) : List Doc → Bool
  | [] => true
  | x :: xs => pyHashable reg x && pyHashableList reg xs
termination_by structural l => l

end

/-- `set(...)` applied to an already-produced element list: every
element must be hashable, duplicates collapse keeping the first
occurrence. -/
def pySetL (reg : TypeRegistry) (xs : List Doc) : Except PyErr Doc :=
  if pyHashableList reg xs then .ok (.set (pyDedup xs)) else .error .typeError

/-- `frozenset(...)` applied to an already-produced element list. -/
def pyFrozensetL (reg : TypeRegistry) (xs : List Doc) : Except PyErr Doc :=
  if pyHashableList reg xs then .ok (.fset (pyDedup xs)) else .error .typeError

/-- `set(obj)`: iterate `obj` and build a set. -/
def pySet (reg : TypeRegistry) (w : Doc) : Except PyErr Doc := do
  let xs ← pyIter w
  pySetL reg xs

/-- `frozenset(obj)`: iterate `obj` and build a frozenset. -/
def pyFrozenset (reg : TypeRegistry) (w : Doc) : Except PyErr Doc := do
  let xs ← pyIter w
  pyFrozensetL reg xs

/-- `list(obj)`: iterate `obj` and keep every element. -/
def pyList (w : Doc) : Except PyErr Doc := do
  let xs ← pyIter w
  .ok (.list xs)

def pad2 (n : Nat) : String := if n < 10 then "0" ++ toString n else toString n

def pad4 (n : Nat) : String :=
  if n < 10 then "000" ++ toString n
  else if n < 100 then "00" ++ toString n
  else if n < 1000 then "0" ++ toString n
  else toString n

/-- `str(datetime.date(y, m, d))`: the ISO form `YYYY-MM-DD`. -/
def dateStr (y m d : Nat) : String := pad4 y ++ "-" ++ pad2 m ++ "-" ++ pad2 d

/-- `s.replace(a, b)` for one-character `a` and `b` (the only uses in
the source: the dot / fullwidth-dot swaps). -/
def pyReplaceChar (a b : Char) (s : String) : String :=
  String.mk (s.data.map (fun c => if c = a then b else c))

/-! ### Storage → Working (`StorageFormat.to_working_format`)

```python
def walk(obj):
    if isinstance(obj, dict):
        if "_type" in obj and obj["_type"] == "set":
            return set(walk(obj["_value"]))
        elif "_type" in obj and obj["_type"] == "frozenset":
            return frozenset(walk(obj["_value"]))
        else:
            res = {}
            for key in obj.keys():
                res[key.replace("．", ".")] = walk(obj[key])
            return res
    elif isinstance(obj, list):
        return list(map(walk, obj))
    return obj
```
`obj["_value"]` raises `KeyError` when absent; `key.replace` raises
`AttributeError` on a non-string key; `set(...)` raises `TypeError` on
unhashable elements.  The registry argument is the ambient global used
only to decide instance hashability inside `set(...)`. -/

def loadKey : Key → Except PyErr Key
  | .str s => .ok (.str (pyReplaceChar '．' '.' s))
  | .symbol _ => .error .attributeError

mutual

def swWalk (reg : TypeRegistry) : Doc → Except PyErr Doc
  | .dict _ kvs =>
    if lookupKV kvs (Key.str "_type") = some (Doc.str "set") then do
      let w ← swWalkValueOf reg kvs
      pySet reg w
    else if lookupKV kvs (Key.str "_type") = some (Doc.str "frozenset") then do
      let w ← swWalkValueOf reg kvs
      pyFrozenset reg w
    else do
      let res ← swWalkKVs reg [] kvs
      .ok (.dict false res)
  | .list xs => do
    let ys ← swWalkList reg xs
    .ok (.list ys)
  | d => .ok d
termination_by structural d => d

/-- `walk(obj["_value"])`: find the (unique) `"_value"` entry and walk
it; `KeyError` when absent. -/
def swWalkValueOf (reg : TypeRegistry) : List (Key × Doc) → Except PyErr Doc
  | [] => .error (.keyError "_value")
  | (k, v) :: rest =>
    if k = Key.str "_value" then swWalk reg v else swWalkValueOf reg rest
termination_by structural l => l

def swWalkList (reg : TypeRegistry) : List Doc → Except PyErr (List Doc)
  | [] => .ok []
  | x :: xs => do
    let y ← swWalk reg x
    let ys ← swWalkList reg xs
    .ok (y :: ys)
termination_by structural l => l

/-- The `res` loop: walk the value (the RHS is evaluated first), decode
the key, assign. -/
def swWalkKVs (reg : TypeRegistry) (acc : List (Key × Doc)) :
    List (Key × Doc) → Except PyErr (List (Key × Doc))
  | [] => .ok acc
  | (k, v) :: rest => do
    let v2 ← swWalk reg v
    let k2 ← loadKey k
    swWalkKVs reg (insertKV acc k2 v2) rest
termination_by structural l => l

end

/-! ### Working → Storage (`WorkingFormat.to_storage_format`)

```python
def map_key(key):
    if isinstance(key, Symbol):
        return f"__{key.label}__"
    if not isinstance(key, str):
        return str(key)
    elif "." in key:
        return key.replace(".", "．")
    return key

def walk(obj):
    if isinstance(obj, dict):
        res = {}
        for key in obj.keys():
            res[map_key(key)] = walk(obj[key])
        return res
    elif isinstance(obj, list):
        return list(map(walk, obj))
    elif isinstance(obj, set):
        return {"_type": "set", "_value": [walk(o) for o in obj]}
    elif isinstance(obj, frozenset):
        return {"_type": "frozenset", "_value": [walk(o) for o in obj]}
    return obj
```
Total: no lookup and no set construction occurs.  (`replace` on a
dot-free key is the identity, so applying it unconditionally agrees
with the `elif "." in key` guard.) -/

def map_key : Key → Key
  | .symbol l => .str ("__" ++ l ++ "__")
  | .str s => .str (pyReplaceChar '.' '．' s)

mutual

def wsWalk : Doc → Doc
  | .dict _ kvs => .dict false (wsWalkKVs [] kvs)
  | .list xs => .list (wsWalkList xs)
  | .set xs =>
    .dict false [(Key.str "_type", Doc.str "set"),
                 (Key.str "_value", Doc.list (wsWalkList xs))]
  | .fset xs =>
    .dict false [(Key.str "_type", Doc.str "frozenset"),
                 (Key.str "_value", Doc.list (wsWalkList xs))]
  | d => d
termination_by structural d => d

def wsWalkList : List Doc → List Doc
  | [] => []
  | x :: xs => wsWalk x :: wsWalkList xs
termination_by structural l => l

def wsWalkKVs (acc : List (Key × Doc)) : List (Key × Doc) → List (Key × Doc)
  | [] => acc
  | (k, v) :: rest => wsWalkKVs (insertKV acc (map_key k) (wsWalk v)) rest
termination_by structural l => l

end

/-! ### Storage → JSON (`StorageFormat.to_json_mapping`)

```python
def walk(obj):
    if isinstance(obj, dict):
        if "_type" in obj and obj["_type"] in ("set", "frozenset"):
            return list(walk(obj["_value"]))
        elif "_type" in obj and obj["_type"] == "Path":
            return obj["_value"]
        else:
            res = {}
            for key in obj.keys():
                res[key.replace("．", ".")] = walk(obj[key])
            if "_hash" in res:
                res.pop("_hash")
            return res
    elif isinstance(obj, date):
        return str(obj)
    elif isinstance(obj, list):
        return list(map(walk, obj))
    return obj
``` -/

mutual

def jsonWalk : Doc → Except PyErr Doc
  | .dict _ kvs =>
    if lookupKV kvs (Key.str "_type") = some (Doc.str "set")
        ∨ lookupKV kvs (Key.str "_type") = some (Doc.str "frozenset") then do
      let w ← jsonWalkValueOf kvs
      pyList w
    else if lookupKV kvs (Key.str "_type") = some (Doc.str "Path") then
      match lookupKV kvs (Key.str "_value") with
      | some v => .ok v
      | none => .error (.keyError "_value")
    else do
      let res ← jsonWalkKVs [] kvs
      .ok (.dict false (eraseKey res (Key.str "_hash")))
  | .date y m d => .ok (.str (dateStr y m d))
  | .list xs => do
    let ys ← jsonWalkList xs
    .ok (.list ys)
  | d => .ok d
termination_by structural d => d

def jsonWalkValueOf : List (Key × Doc) → Except PyErr Doc
  | [] => .error (.keyError "_value")
  | (k, v) :: rest =>
    if k = Key.str "_value" then jsonWalk v else jsonWalkValueOf rest
termination_by structural l => l

def jsonWalkList : List Doc → Except PyErr (List Doc)
  | [] => .ok []
  | x :: xs => do
    let y ← jsonWalk x
    let ys ← jsonWalkList xs
    .ok (y :: ys)
termination_by structural l => l

def jsonWalkKVs (acc : List (Key × Doc)) :
    List (Key × Doc) → Except PyErr (List (Key × Doc))
  | [] => .ok acc
  | (k, v) :: rest => do
    let v2 ← jsonWalk v
    let k2 ← loadKey k
    jsonWalkKVs (insertKV acc k2 v2) rest
termination_by structural l => l

end

/-! ### Working → Raw (`WorkingFormat.to_raw_format`)

```python
def walk(obj):
    if isinstance(obj, dict):
        if "_type" in obj and obj["_type"] == "Path":
            return Path(obj["_value"])
        else:
            return {key: walk(value) for key, value in obj.items()}
    elif isinstance(obj, list):
        return list(map(walk, obj))
    elif isinstance(obj, set):
        return set(map(walk, obj))
    elif isinstance(obj, frozenset):
        return frozenset(map(walk, obj))
    return obj
```
`Path(x)` accepts a string or a path and raises `TypeError` otherwise;
the dict comprehension keeps the (unique) keys in order. -/

mutual

def wrWalk (reg : TypeRegistry) : Doc → Except PyErr Doc
  | .dict _ kvs =>
    if lookupKV kvs (Key.str "_type") = some (Doc.str "Path") then
      match lookupKV kvs (Key.str "_value") with
      | none => .error (.keyError "_value")
      | some (.str s) => .ok (.path s)
      | some (.path s) => .ok (.path s)
      | some _ => .error .typeError
    else do
      let res ← wrWalkKVs reg kvs
      .ok (.dict false res)
  | .list xs => do
    let ys ← wrWalkList reg xs
    .ok (.list ys)
  | .set xs => do
    let ys ← wrWalkList reg xs
    pySetL reg ys
  | .fset xs => do
    let ys ← wrWalkList reg xs
    pyFrozensetL reg ys
  | d => .ok d
termination_by structural d => d

def wrWalkList (reg : TypeRegistry) : List Doc → Except PyErr (List Doc)
  | [] => .ok []
  | x :: xs => do
    let y ← wrWalk reg x
    let ys ← wrWalkList reg xs
    .ok (y :: ys)
termination_by structural l => l

def wrWalkKVs (reg : TypeRegistry) :
    List (Key × Doc) → Except PyErr (List (Key × Doc))
  | [] => .ok []
  | (k, v) :: rest => do
    let v2 ← wrWalk reg v
    let rest2 ← wrWalkKVs reg rest
    .ok ((k, v2) :: rest2)
termination_by structural l => l

end

/-! ### Raw → Working (`RawFormat.to_working_format`)

```python
def walk(obj):
    if isinstance(obj, dict):
        d = {key: walk(value) for key, value in obj.items()}
        if "_hash" in d:
            return hashdict(d)
        return d
    elif isinstance(obj, list):
        return list(map(walk, obj))
    elif isinstance(obj, set):
        return set(map(walk, obj))
    elif isinstance(obj, frozenset):
        return frozenset(map(walk, obj))
    elif isinstance(obj, Path):
        return hashdict({"_type": "Path", "_value": str(obj), "_hash": hash(obj)})
    return obj
``` -/

mutual

def rwWalk (reg : TypeRegistry) : Doc → Except PyErr Doc
  | .dict _ kvs => do
    let d ← rwWalkKVs reg kvs
    if (lookupKV d (Key.str "_hash")).isSome then .ok (.dict true d)
    else .ok (.dict false d)
  | .list xs => do
    let ys ← rwWalkList reg xs
    .ok (.list ys)
  | .set xs => do
    let ys ← rwWalkList reg xs
    pySetL reg ys
  | .fset xs => do
    let ys ← rwWalkList reg xs
    pyFrozensetL reg ys
  | .path p =>
    .ok (.dict true [(Key.str "_type", Doc.str "Path"),
                     (Key.str "_value", Doc.str p),
                     (Key.str "_hash", Doc.int (pathHash p))])
  | d => .ok d
termination_by structural d => d

def rwWalkList (reg : TypeRegistry) : List Doc → Except PyErr (List Doc)
  | [] => .ok []
  | x :: xs => do
    let y ← rwWalk reg x
    let ys ← rwWalkList reg xs
    .ok (y :: ys)
termination_by structural l => l

def rwWalkKVs (reg : TypeRegistry) :
    List (Key × Doc) → Except PyErr (List (Key × Doc))
  | [] => .ok []
  | (k, v) :: rest => do
    let v2 ← rwWalk reg v
    let rest2 ← rwWalkKVs reg rest
    .ok ((k, v2) :: rest2)
termination_by structural l => l

end

/-! ### Raw → Object (`RawFormat.to_obj_format`)

```python
def walk(obj):
    if isinstance(obj, dict):
        res = {key: walk(value) for key, value in obj.items()}
        if "_type" in res and res["_type"] in serializable_complex_types():
            complex_type = res.pop("_type")
            if "_hash" in res:
                res.pop("_hash")
            return serializable_complex_types()[complex_type].from_dict(res)
        else:
            return res
    elif isinstance(obj, list):
        return list(map(walk, obj))
    elif isinstance(obj, set):
        return set(map(walk, obj))
    elif isinstance(obj, frozenset):
        return frozenset(map(walk, obj))
    return obj
```
Membership of `res["_type"]` in the registry only holds for a string
equal to a registered tag. -/

/-- `cls(**dct)` needs string keyword names. -/
def stringFields : List (Key × Doc) → Except PyErr (List (String × Doc))
  | [] => .ok []
  | (Key.str s, v) :: rest => do
    let r ← stringFields rest
    .ok ((s, v) :: r)
  | (Key.symbol _, _) :: _ => .error .typeError

/-- Modelled from the spec: `ComplexSerializableType.from_dict`
(`sec_certs.serialization.json`, not under `src/`).  Spec §6: the decode
operation accepts the field mapping with the tag already removed and
reconstructs the instance; §8 requires decode to invert encode, so it is
modelled as the canonical inverse of `to_dict`. -/
def from_dict (t : String) (kvs : List (Key × Doc)) : Except PyErr Doc := do
  let fs ← stringFields kvs
  .ok (.inst t fs)

mutual

def roWalk (reg : TypeRegistry) : Doc → Except PyErr Doc
  | .dict _ kvs => do
    let res ← roWalkKVs reg kvs
    match lookupKV res (Key.str "_type") with
    | some (.str t) =>
      if reg.tags.contains t then
        from_dict t (eraseKey (eraseKey res (Key.str "_type")) (Key.str "_hash"))
      else .ok (.dict false res)
    | _ => .ok (.dict false res)
  | .list xs => do
    let ys ← roWalkList reg xs
    .ok (.list ys)
  | .set xs => do
    let ys ← roWalkList reg xs
    pySetL reg ys
  | .fset xs => do
    let ys ← roWalkList reg xs
    pyFrozensetL reg ys
  | d => .ok d
termination_by structural d => d

def roWalkList (reg : TypeRegistry) : List Doc → Except PyErr (List Doc)
  | [] => .ok []
  | x :: xs => do
    let y ← roWalk reg x
    let ys ← roWalkList reg xs
    .ok (y :: ys)
termination_by structural l => l

def roWalkKVs (reg : TypeRegistry) :
    List (Key × Doc) → Except PyErr (List (Key × Doc))
  | [] => .ok []
  | (k, v) :: rest => do
    let v2 ← roWalk reg v
    let rest2 ← roWalkKVs reg rest
    .ok ((k, v2) :: rest2)
termination_by structural l => l

end

/-! ### Object → Raw (`ObjFormat.to_raw_format`)

```python
def walk(obj):
    if isinstance(obj, ComplexSerializableType):
        try:
            h = hash(obj)
            return hashdict({"_type": type(obj).__name__, "_hash": h, **walk(obj.to_dict())})
        except TypeError:
            return {"_type": type(obj).__name__, **walk(obj.to_dict())}
    elif isinstance(obj, dict):
        return {key: walk(value) for key, value in obj.items()}
    elif isinstance(obj, list):
        return list(map(walk, obj))
    elif isinstance(obj, set):
        return set(map(walk, obj))
    elif isinstance(obj, frozenset):
        return frozenset(map(walk, obj))
    return obj
```
`to_dict` is the encode operation of the descriptor (spec §6), modelled
canonically as the instance's field mapping.  In the hashable branch a
`TypeError` escaping `walk(obj.to_dict())` would be caught and raised
again, identically, by the `except` branch's own `walk` call, so
propagating the walk's error directly is observably equal.  The `**`
splat merges the walked fields into the literal in order. -/

def mergeSFs (base : List (Key × Doc)) (wf : List (String × Doc)) :
    List (Key × Doc) :=
  wf.foldl (fun acc kv => insertKV acc (Key.str kv.1) kv.2) base

mutual

def orWalk (reg : TypeRegistry) : Doc → Except PyErr Doc
  | .inst t fields => do
    let wf ← orWalkSFs reg fields
    if reg.instHashable t then
      .ok (.dict true
        (mergeSFs [(Key.str "_type", Doc.str t),
                   (Key.str "_hash", Doc.int (reg.instHash t fields))] wf))
    else
      .ok (.dict false (mergeSFs [(Key.str "_type", Doc.str t)] wf))
  | .dict _ kvs => do
    let res ← orWalkKVs reg kvs
    .ok (.dict false res)
  | .list xs => do
    let ys ← orWalkList reg xs
    .ok (.list ys)
  | .set xs => do
    let ys ← orWalkList reg xs
    pySetL reg ys
  | .fset xs => do
    let ys ← orWalkList reg xs
    pyFrozensetL reg ys
  | d => .ok d
termination_by structural d => d

def orWalkList (reg : TypeRegistry) : List Doc → Except PyErr (List Doc)
  | [] => .ok []
  | x :: xs => do
    let y ← orWalk reg x
    let ys ← orWalkList reg xs
    .ok (y :: ys)
termination_by structural l => l

def orWalkKVs (reg : TypeRegistry) :
    List (Key × Doc) → Except PyErr (List (Key × Doc))
  | [] => .ok []
  | (k, v) :: rest => do
    let v2 ← orWalk reg v
    let rest2 ← orWalkKVs reg rest
    .ok ((k, v2) :: rest2)
termination_by structural l => l

/-- `walk(obj.to_dict())`: the walked field mapping of an instance. -/
def orWalkSFs (reg : TypeRegistry) :
    List (String × Doc) → Except PyErr (List (String × Doc))
  | [] => .ok []
  | (k, v) :: rest => do
    let v2 ← orWalk reg v
    let rest2 ← orWalkSFs reg rest
    .ok ((k, v2) :: rest2)
termination_by structural l => l

end

/-! ### The format classes' public operations and the facade -/

def StorageFormat.to_working_format (reg : TypeRegistry) (doc : Doc) :
    Except PyErr Doc := swWalk reg doc

def StorageFormat.to_json_mapping (doc : Doc) : Except PyErr Doc := jsonWalk doc

def WorkingFormat.to_storage_format (doc : Doc) : Doc := wsWalk doc

def WorkingFormat.to_raw_format (reg : TypeRegistry) (doc : Doc) :
    Except PyErr Doc := wrWalk reg doc

def RawFormat.to_working_format (reg : TypeRegistry) (doc : Doc) :
    Except PyErr Doc := rwWalk reg doc

def RawFormat.to_obj_format (reg : TypeRegistry) (doc : Doc) :
    Except PyErr Doc := roWalk reg doc

def ObjFormat.to_raw_format (reg : TypeRegistry) (doc : Doc) :
    Except PyErr Doc := orWalk reg doc

/-- `load(doc) = StorageFormat(doc).to_working_format().get()`. -/
def load (reg : TypeRegistry) (doc : Doc) : Except PyErr Doc :=
  StorageFormat.to_working_format reg doc

/-- `store(doc) = WorkingFormat(doc).to_storage_format().get()`. -/
def store (doc : Doc) : Doc := WorkingFormat.to_storage_format doc

/-! ### Registry construction (`serializable_complex_types`)

```python
def serializable_complex_types():
    global _sct
    if _sct is None:
        _sct = {x.__name__: x for x in ComplexSerializableType.__subclasses__()}
    return _sct
```
A subclass is modelled as a pair of its `__name__` and an identifier
that distinguishes distinct classes; the dict comprehension inserts the
pairs left to right.  (The lazy module-global cache only memoises the
same pure computation.) -/

def insertSN : List (String × Nat) → String → Nat → List (String × Nat)
  | [], k, v => [(k, v)]
  | (k0, v0) :: rest, k, v =>
    if k0 = k then (k0, v) :: rest else (k0, v0) :: insertSN rest k v

def serializable_complex_types (subclasses : List (String × Nat)) :
    List (String × Nat) :=
  subclasses.foldl (fun m x => insertSN m x.1 x.2) []

def lookupSN : List (String × Nat) → String → Option Nat
  | [], _ => none
  | (k, v) :: rest, k0 => if k = k0 then some v else lookupSN rest k0

/-! ### Well-formedness predicates used as round-trip hypotheses -/

/-- A Storage-stage mapping key: a string with no literal dot
(invariant I1 of the spec: the storage boundary never holds dotted
keys). -/
def storageKeyOkB : Key → Bool
  | .str s => !s.data.contains '.'
  | .symbol _ => false

/-- A Working-stage mapping key: a string that does not contain the
reserved dot-substitute character (which the application never uses in
real field names, spec §6). -/
def workingKeyOkB : Key → Bool
  | .str s => !s.data.contains '．'
  | .symbol _ => false

/-- The mapping does not carry a `"_type"` entry equal to `"set"` or
`"frozenset"` (freedom from the I2 tag ambiguity for the
Storage↔Working hop). -/
def tagNotSetFS (kvs : List (Key × Doc)) : Bool :=
  !(lookupKV kvs (Key.str "_type") == some (Doc.str "set"))
    && !(lookupKV kvs (Key.str "_type") == some (Doc.str "frozenset"))

mutual

/-- Storage-stage documents on which the exact `store ∘ load` round
trip is claimed: scalar values, lists, and plain dicts with unique,
dot-free string keys, no set/frozenset tag and no `hashdict`s; no
native sets, paths, symbols or domain objects (the storage boundary
never produces those), and no set/frozenset-tagged mappings (the
amended claim C1). -/
def storageWF : Doc → Bool
  | .null => true
  | .bool _ => true
  | .int _ => true
  | .str _ => true
  | .date _ _ _ => true
  | .list xs => storageWFList xs
  | .dict hd kvs =>
    !hd && kvs.all (fun kv => storageKeyOkB kv.1) && keyNodupB kvs
      && tagNotSetFS kvs && storageWFKVs kvs
  | _ => false
termination_by structural d => d

def storageWFList : List Doc → Bool
  | [] => true
  | x :: xs => storageWF x && storageWFList xs
termination_by structural l => l

def storageWFKVs : List (Key × Doc) → Bool
  | [] => true
  | (_, v) :: rest => storageWF v && storageWFKVs rest
termination_by structural l => l

end

mutual

/-- Working-stage documents on which the `load ∘ store` round trip is
claimed: scalar values, lists, plain dicts with unique string keys that
are free of the dot-substitute character and free of the I2 set tag
ambiguity, and sets/frozensets of duplicate-free hashable scalar /
frozenset elements (a dict element would come back from storage as a
plain, unhashable dict and `set()` would raise). -/
def workingWF : Doc → Bool
  | .null => true
  | .bool _ => true
  | .int _ => true
  | .str _ => true
  | .date _ _ _ => true
  | .list xs => workingWFList xs
  | .dict hd kvs =>
    !hd && kvs.all (fun kv => workingKeyOkB kv.1) && keyNodupB kvs
      && tagNotSetFS kvs && workingWFKVs kvs
  | .set xs => setElemsOkList xs && nodupB xs
  | .fset xs => setElemsOkList xs && nodupB xs
  | _ => false
termination_by structural d => d

def workingWFList : List Doc → Bool
  | [] => true
  | x :: xs => workingWF x && workingWFList xs
termination_by structural l => l

def workingWFKVs : List (Key × Doc) → Bool
  | [] => true
  | (_, v) :: rest => workingWF v && workingWFKVs rest
termination_by structural l => l

/-- Set/frozenset elements that survive the storage round trip as set
members: scalars and (nested) frozensets of such. -/
def setElemsOk : Doc → Bool
  | .null => true
  | .bool _ => true
  | .int _ => true
  | .str _ => true
  | .date _ _ _ => true
  | .fset xs => setElemsOkList xs && nodupB xs
  | _ => false
termination_by structural d => d

def setElemsOkList : List Doc → Bool
  | [] => true
  | x :: xs => setElemsOk x && setElemsOkList xs
termination_by structural l => l

end

/-- The mapping's `"_type"` entry, if any, is not a registered tag (so
Raw→Object resolution leaves the mapping alone). -/
def objTagOkB (reg : TypeRegistry) (kvs : List (Key × Doc)) : Bool :=
  match lookupKV kvs (Key.str "_type") with
  | some (.str t) => !reg.tags.contains t
  | _ => true

mutual

/-- Object-stage documents on which the `to_object ∘ to_raw` round trip
is claimed: plain dicts (unique keys, no `"_type"` entry naming a
registered tag), lists, sets/frozensets of duplicate-free elements that
stay hashable on both sides of the hop, scalars, paths, symbols, and
live domain objects whose tag is registered and whose field names are
unique and avoid the reserved `"_type"` / `"_hash"` names. -/
def objWF (reg : TypeRegistry) : Doc → Bool
  | .null => true
  | .bool _ => true
  | .int _ => true
  | .str _ => true
  | .date _ _ _ => true
  | .path _ => true
  | .symbol _ => true
  | .list xs => objWFList reg xs
  | .dict hd kvs => !hd && keyNodupB kvs && objTagOkB reg kvs && objWFKVs reg kvs
  | .set xs => objWFList reg xs && nodupB xs && objSetElemsOkList reg xs
  | .fset xs => objWFList reg xs && nodupB xs && objSetElemsOkList reg xs
  | .inst t fields =>
    reg.tags.contains t && sfNodupB fields
      && !(fields.map Prod.fst).contains "_type"
      && !(fields.map Prod.fst).contains "_hash"
      && objWFSFs reg fields
termination_by structural d => d

def objWFList (reg : TypeRegistry) : List Doc → Bool
  | [] => true
  | x :: xs => objWF reg x && objWFList reg xs
termination_by structural l => l

def objWFKVs (reg : TypeRegistry) : List (Key × Doc) → Bool
  | [] => true
  | (_, v) :: rest => objWF reg v && objWFKVs reg rest
termination_by structural l => l

def objWFSFs (reg : TypeRegistry) : List (String × Doc) → Bool
  | [] => true
  | (_, v) :: rest => objWF reg v && objWFSFs reg rest
termination_by structural l => l

/-- Object-stage set elements: hashable before the hop and still
hashable after `to_raw` walks them (scalars, paths, symbols,
frozensets of such, and instances of hash-supporting classes; an
instance of a non-hashing class would be emitted as a plain dict and
`set()` would raise on the Raw side). -/
def objSetElemOk (reg : TypeRegistry) : Doc → Bool
  | .null => true
  | .bool _ => true
  | .int _ => true
  | .str _ => true
  | .date _ _ _ => true
  | .path _ => true
  | .symbol _ => true
  | .inst t _ => reg.instHashable t
  | .fset xs => objSetElemsOkList reg xs
  | _ => false
termination_by structural d => d

def objSetElemsOkList (reg : TypeRegistry) : List Doc → Bool
  | [] => true
  | x :: xs => objSetElemOk reg x && objSetElemsOkList reg xs
termination_by structural l => l

end

mutual

/-- A set/frozenset-tagged mapping with no `"_value"` entry occurs at a
position that `StorageFormat.to_working_format` actually visits. -/
def malformedVisible : Doc → Bool
  | .dict _ kvs =>
    if lookupKV kvs (Key.str "_type") = some (Doc.str "set")
        ∨ lookupKV kvs (Key.str "_type") = some (Doc.str "frozenset") then
      malformedValueOf kvs
    else malformedVisibleKVs kvs
  | .list xs => malformedVisibleList xs
  | _ => false
termination_by structural d => d

/-- No `"_value"` entry at all (the walk would raise `KeyError`), or the
`"_value"` entry itself has a visibly malformed mapping. -/
def malformedValueOf : List (Key × Doc) → Bool
  | [] => true
  | (k, v) :: rest =>
    if k = Key.str "_value" then malformedVisible v else malformedValueOf rest
termination_by structural l => l

def malformedVisibleList : List Doc → Bool
  | [] => false
  | x :: xs => malformedVisible x || malformedVisibleList xs
termination_by structural l => l

def malformedVisibleKVs : List (Key × Doc) → Bool
  | [] => false
  | (_, v) :: rest => malformedVisible v || malformedVisibleKVs rest
termination_by structural l => l

end

mutual

/-- A set/frozenset-tagged mapping with no `"_value"` entry occurs
somewhere in the document (as an arbitrary subterm). -/
def containsMalformedSetTag : Doc → Bool
  | .dict _ kvs =>
    ((lookupKV kvs (Key.str "_type") == some (Doc.str "set")
        || lookupKV kvs (Key.str "_type") == some (Doc.str "frozenset"))
      && (lookupKV kvs (Key.str "_value")).isNone)
      || containsMalformedKVs kvs
  | .list xs => containsMalformedList xs
  | .set xs => containsMalformedList xs
  | .fset xs => containsMalformedList xs
  | _ => false
termination_by structural d => d

def containsMalformedList : List Doc → Bool
  | [] => false
  | x :: xs => containsMalformedSetTag x || containsMalformedList xs
termination_by structural l => l

def containsMalformedKVs : List (Key × Doc) → Bool
  | [] => false
  | (_, v) :: rest => containsMalformedSetTag v || containsMalformedKVs rest
termination_by structural l => l

end

/-! ### Proof helpers: walk a kv list without the accumulator -/

/-- The pairs produced by the `res` loop of
`StorageFormat.to_working_format`, before insertion. -/
def swWalkPairs (reg : TypeRegistry) :
    List (Key × Doc) → Except PyErr (List (Key × Doc))
  | [] => .ok []
  | (k, v) :: rest => do
    let v2 ← swWalk reg v
    let k2 ← loadKey k
    let r ← swWalkPairs reg rest
    .ok ((k2, v2) :: r)

/-- The pairs produced by the `res` loop of
`WorkingFormat.to_storage_format`, before insertion. -/
def wsWalkPairs (kvs : List (Key × Doc)) : List (Key × Doc) :=
  kvs.map (fun kv => (map_key kv.1, wsWalk kv.2))

/-- The pairs produced by the `res` loop of
`StorageFormat.to_json_mapping`, before insertion. -/
def jsonWalkPairs : List (Key × Doc) → Except PyErr (List (Key × Doc))
  | [] => .ok []
  | (k, v) :: rest => do
    let v2 ← jsonWalk v
    let k2 ← loadKey k
    let r ← jsonWalkPairs rest
    .ok ((k2, v2) :: r)

/-! ### Pure lemmas about the container helpers -/

theorem insertKV_fresh (acc : List (Key × Doc)) (k : Key) (v : Doc)
    (h : k ∉ acc.map Prod.fst) : insertKV acc k v = acc ++ [(k, v)] := by
  induction acc with
  | nil => rfl
  | cons kv rest ih =>
    obtain ⟨k0, v0⟩ := kv
    have h1 : ¬ (k0 = k) := fun e => h (by simp [e])
    simp only [insertKV, if_neg h1]
    rw [ih (fun m => h (by simp [m]))]
    simp

theorem contains_false_iff {α : Type} [DecidableEq α] {xs : List α} {x : α} :
    xs.contains x = false ↔ x ∉ xs := by
  rw [← Bool.not_eq_true]
  exact not_congr List.elem_iff

theorem foldl_insertKV (ps : List (Key × Doc)) :
    ∀ acc, (∀ p ∈ ps, p.1 ∉ acc.map Prod.fst) → keyNodupB ps = true →
    ps.foldl (fun a p => insertKV a p.1 p.2) acc = acc ++ ps := by
  induction ps with
  | nil => intro acc _ _; simp
  | cons p rest ih =>
    intro acc hfresh hnd
    obtain ⟨k, v⟩ := p
    simp only [keyNodupB, Bool.and_eq_true] at hnd
    have hk : k ∉ (rest.map Prod.fst) := by
      have := hnd.1
      simp only [Bool.not_eq_eq_eq_not, Bool.not_true] at this
      exact contains_false_iff.mp this
    rw [List.foldl_cons, insertKV_fresh acc k v (hfresh (k, v) (by simp))]
    rw [ih (acc ++ [(k, v)]) ?_ hnd.2]
    · simp
    · intro q hq
      simp only [List.map_append, List.mem_append, List.map_cons, List.map_nil,
        List.mem_singleton, not_or]
      refine ⟨fun m => hfresh q (by simp [hq]) (by simpa using m), ?_⟩
      intro e
      exact hk (e ▸ List.mem_map_of_mem Prod.fst hq)

theorem nodupB_cons_iff {x : Doc} {xs : List Doc} :
    nodupB (x :: xs) = true ↔ x ∉ xs ∧ nodupB xs = true := by
  simp only [nodupB, Bool.and_eq_true, Bool.not_eq_eq_eq_not, Bool.not_true]
  rw [contains_false_iff]

theorem pyDedupAux_eq_self :
    ∀ (xs seen : List Doc), nodupB xs = true → (∀ x ∈ xs, x ∉ seen) →
    pyDedupAux seen xs = xs := by
  intro xs
  induction xs with
  | nil => intro seen _ _; rfl
  | cons x xs ih =>
    intro seen hnd hs
    obtain ⟨hx, hxs⟩ := nodupB_cons_iff.mp hnd
    rw [pyDedupAux, if_neg (hs x (by simp))]
    rw [ih (seen ++ [x]) hxs ?_]
    intro y hy
    simp only [List.mem_append, List.mem_singleton, not_or]
    exact ⟨hs y (by simp [hy]), fun e => hx (e ▸ hy)⟩

theorem pyDedup_eq_self {xs : List Doc} (h : nodupB xs = true) :
    pyDedup xs = xs :=
  pyDedupAux_eq_self xs [] h (by simp)

/-! ### Lemmas about the character swaps -/

theorem list_swap_roundtrip (a b : Char) :
    ∀ (l : List Char), b ∉ l →
    (l.map (fun c => if c = a then b else c)).map
      (fun c => if c = b then a else c) = l := by
  intro l
  induction l with
  | nil => intro _; rfl
  | cons c l ih =>
    intro h
    simp only [List.mem_cons, not_or] at h
    by_cases hc : c = a
    · simp [hc, ih h.2]
    · have hcb : ¬ (c = b) := fun e => h.1 e.symm
      simp [hc, hcb, ih h.2]

theorem map_swap_eq {a b : Char} :
    ∀ {l m : List Char}, b ∉ m →
    l.map (fun c => if c = a then b else c) = m → l = m := by
  intro l
  induction l with
  | nil => intro m _ e; simpa using e.symm
  | cons c l ih =>
    intro m hm e
    cases m with
    | nil => simp at e
    | cons d m2 =>
      simp only [List.map_cons, List.cons.injEq] at e
      simp only [List.mem_cons, not_or] at hm
      obtain ⟨e1, e2⟩ := e
      have hcd : c = d := by
        by_cases hc : c = a
        · subst hc
          simp only [if_true, if_pos] at e1
          exact absurd e1 hm.1
        · simpa [hc] using e1
      rw [hcd, ih hm.2 e2]

theorem stringMk_eq_iff {l : List Char} {t : String} :
    String.mk l = t ↔ l = t.data := by
  cases t
  exact ⟨fun e => congrArg String.data e, fun e => congrArg String.mk e⟩

theorem string_data_inj {s t : String} (h : s.data = t.data) : s = t := by
  cases s
  cases t
  exact congrArg String.mk h

theorem replace_roundtrip {a b : Char} {s : String} (h : b ∉ s.data) :
    pyReplaceChar b a (pyReplaceChar a b s) = s := by
  unfold pyReplaceChar
  rw [stringMk_eq_iff]
  exact list_swap_roundtrip a b s.data h

theorem replace_eq_iff {a b : Char} {s t : String}
    (hb : b ∉ t.data) (ha : a ∉ t.data) :
    pyReplaceChar a b s = t ↔ s = t := by
  constructor
  · intro e
    rw [pyReplaceChar, stringMk_eq_iff] at e
    exact string_data_inj (map_swap_eq hb e)
  · intro e
    subst e
    rw [pyReplaceChar, stringMk_eq_iff]
    have h2 : ∀ c ∈ s.data, (if c = a then b else c) = c := by
      intro c hc
      refine if_neg (fun e2 => ha ?_)
      rw [e2] at hc
      exact hc
    rw [List.map_congr_left h2]
    simp

/-! ### The kv loops in terms of the pair lists -/

@[simp] theorem exceptBind_ok {α β : Type} (a : α) (f : α → Except PyErr β) :
    (Except.ok a : Except PyErr α) >>= f = f a := rfl

@[simp] theorem exceptBind_error {α β : Type} (e : PyErr)
    (f : α → Except PyErr β) :
    (Except.error e : Except PyErr α) >>= f = Except.error e := rfl

@[simp] theorem exceptMap_ok {α β : Type} (a : α) (f : α → β) :
    (Except.ok a : Except PyErr α).map f = Except.ok (f a) := rfl

@[simp] theorem exceptMap_error {α β : Type} (e : PyErr) (f : α → β) :
    (Except.error e : Except PyErr α).map f = Except.error e := rfl

theorem swWalkKVs_eq_pairs (reg : TypeRegistry) :
    ∀ (kvs acc : List (Key × Doc)),
    swWalkKVs reg acc kvs =
      (swWalkPairs reg kvs).map
        (fun ps => ps.foldl (fun a p => insertKV a p.1 p.2) acc) := by
  intro kvs
  induction kvs with
  | nil => intro acc; simp [swWalkKVs, swWalkPairs, Except.map]
  | cons kv rest ih =>
    intro acc
    obtain ⟨k, v⟩ := kv
    simp only [swWalkKVs, swWalkPairs]
    cases hv : swWalk reg v with
    | error e => simp [Except.map, Except.bind]
    | ok v2 =>
      cases hk : loadKey k with
      | error e => simp [Except.map, Except.bind]
      | ok k2 =>
        simp only [exceptBind_ok]
        rw [ih]
        cases hr : swWalkPairs reg rest <;> simp [List.foldl]

theorem jsonWalkKVs_eq_pairs :
    ∀ (kvs acc : List (Key × Doc)),
    jsonWalkKVs acc kvs =
      (jsonWalkPairs kvs).map
        (fun ps => ps.foldl (fun a p => insertKV a p.1 p.2) acc) := by
  intro kvs
  induction kvs with
  | nil => intro acc; simp [jsonWalkKVs, jsonWalkPairs, Except.map]
  | cons kv rest ih =>
    intro acc
    obtain ⟨k, v⟩ := kv
    simp only [jsonWalkKVs, jsonWalkPairs]
    cases hv : jsonWalk v with
    | error e => simp [Except.map, Except.bind]
    | ok v2 =>
      cases hk : loadKey k with
      | error e => simp [Except.map, Except.bind]
      | ok k2 =>
        simp only [exceptBind_ok]
        rw [ih]
        cases hr : jsonWalkPairs rest <;> simp [List.foldl]

theorem wsWalkKVs_eq_pairs :
    ∀ (kvs acc : List (Key × Doc)),
    wsWalkKVs acc kvs =
      (wsWalkPairs kvs).foldl (fun a p => insertKV a p.1 p.2) acc := by
  intro kvs
  induction kvs with
  | nil => intro acc; rfl
  | cons kv rest ih =>
    intro acc
    obtain ⟨k, v⟩ := kv
    simp [wsWalkKVs, wsWalkPairs, ih]

/-! ### Bridges between the boolean list predicates and `∀ _ ∈ _` -/

theorem storageWFList_forall {xs : List Doc} (h : storageWFList xs = true) :
    ∀ x ∈ xs, storageWF x = true := by
  induction xs with
  | nil => simp
  | cons x xs ih =>
    rw [storageWFList, Bool.and_eq_true] at h
    intro y hy
    rcases List.mem_cons.mp hy with e | m
    · exact e ▸ h.1
    · exact ih h.2 y m

theorem storageWFKVs_forall {kvs : List (Key × Doc)}
    (h : storageWFKVs kvs = true) : ∀ kv ∈ kvs, storageWF kv.2 = true := by
  induction kvs with
  | nil => simp
  | cons kv kvs ih =>
    obtain ⟨k, v⟩ := kv
    rw [storageWFKVs, Bool.and_eq_true] at h
    intro q hq
    rcases List.mem_cons.mp hq with e | m
    · exact e ▸ h.1
    · exact ih h.2 q m

theorem workingWFList_forall {xs : List Doc} (h : workingWFList xs = true) :
    ∀ x ∈ xs, workingWF x = true := by
  induction xs with
  | nil => simp
  | cons x xs ih =>
    rw [workingWFList, Bool.and_eq_true] at h
    intro y hy
    rcases List.mem_cons.mp hy with e | m
    · exact e ▸ h.1
    · exact ih h.2 y m

theorem workingWFKVs_forall {kvs : List (Key × Doc)}
    (h : workingWFKVs kvs = true) : ∀ kv ∈ kvs, workingWF kv.2 = true := by
  induction kvs with
  | nil => simp
  | cons kv kvs ih =>
    obtain ⟨k, v⟩ := kv
    rw [workingWFKVs, Bool.and_eq_true] at h
    intro q hq
    rcases List.mem_cons.mp hq with e | m
    · exact e ▸ h.1
    · exact ih h.2 q m

theorem setElemsOkList_forall {xs : List Doc} (h : setElemsOkList xs = true) :
    ∀ x ∈ xs, setElemsOk x = true := by
  induction xs with
  | nil => simp
  | cons x xs ih =>
    rw [setElemsOkList, Bool.and_eq_true] at h
    intro y hy
    rcases List.mem_cons.mp hy with e | m
    · exact e ▸ h.1
    · exact ih h.2 y m

theorem objWFList_forall {reg : TypeRegistry} {xs : List Doc}
    (h : objWFList reg xs = true) : ∀ x ∈ xs, objWF reg x = true := by
  induction xs with
  | nil => simp
  | cons x xs ih =>
    rw [objWFList, Bool.and_eq_true] at h
    intro y hy
    rcases List.mem_cons.mp hy with e | m
    · exact e ▸ h.1
    · exact ih h.2 y m

theorem objWFKVs_forall {reg : TypeRegistry} {kvs : List (Key × Doc)}
    (h : objWFKVs reg kvs = true) : ∀ kv ∈ kvs, objWF reg kv.2 = true := by
  induction kvs with
  | nil => simp
  | cons kv kvs ih =>
    obtain ⟨k, v⟩ := kv
    rw [objWFKVs, Bool.and_eq_true] at h
    intro q hq
    rcases List.mem_cons.mp hq with e | m
    · exact e ▸ h.1
    · exact ih h.2 q m

theorem objWFSFs_forall {reg : TypeRegistry} {fs : List (String × Doc)}
    (h : objWFSFs reg fs = true) : ∀ kv ∈ fs, objWF reg kv.2 = true := by
  induction fs with
  | nil => simp
  | cons kv fs ih =>
    obtain ⟨k, v⟩ := kv
    rw [objWFSFs, Bool.and_eq_true] at h
    intro q hq
    rcases List.mem_cons.mp hq with e | m
    · exact e ▸ h.1
    · exact ih h.2 q m

theorem objSetElemsOkList_forall {reg : TypeRegistry} {xs : List Doc}
    (h : objSetElemsOkList reg xs = true) :
    ∀ x ∈ xs, objSetElemOk reg x = true := by
  induction xs with
  | nil => simp
  | cons x xs ih =>
    rw [objSetElemsOkList, Bool.and_eq_true] at h
    intro y hy
    rcases List.mem_cons.mp hy with e | m
    · exact e ▸ h.1
    · exact ih h.2 y m

theorem pyHashableList_of_forall {reg : TypeRegistry} {xs : List Doc}
    (h : ∀ x ∈ xs, pyHashable reg x = true) : pyHashableList reg xs = true := by
  induction xs with
  | nil => rfl
  | cons x xs ih =>
    rw [pyHashableList, Bool.and_eq_true]
    exact ⟨h x (by simp), ih (fun y hy => h y (by simp [hy]))⟩

/-- Set elements accepted by `setElemsOk` are hashable (in particular
they may be rebuilt into a set by `set(...)`). -/
theorem setElemsOk_hashable (reg : TypeRegistry) :
    ∀ d, setElemsOk d = true → pyHashable reg d = true := by
  refine doc_strongInd _ ?_
  intro d ih h
  cases d <;> simp_all [setElemsOk, pyHashable]
  case fset xs =>
    refine pyHashableList_of_forall (fun x hx => ?_)
    have hx2 := setElemsOkList_forall h.1 x hx
    have hs : sizeOf x < 1 + sizeOf xs := by
      have := sizeOf_lt_of_mem_list hx
      omega
    exact ih x hs hx2

/-! ### Error propagation through `StorageFormat.to_working_format` (C3) -/

theorem malformedVisibleList_exists {xs : List Doc}
    (h : malformedVisibleList xs = true) :
    ∃ x ∈ xs, malformedVisible x = true := by
  induction xs with
  | nil => simp [malformedVisibleList] at h
  | cons x xs ih =>
    rw [malformedVisibleList, Bool.or_eq_true] at h
    rcases h with h1 | h2
    · exact ⟨x, by simp, h1⟩
    · obtain ⟨y, hy, hm⟩ := ih h2
      exact ⟨y, by simp [hy], hm⟩

theorem malformedVisibleKVs_exists {kvs : List (Key × Doc)}
    (h : malformedVisibleKVs kvs = true) :
    ∃ kv ∈ kvs, malformedVisible kv.2 = true := by
  induction kvs with
  | nil => simp [malformedVisibleKVs] at h
  | cons kv kvs ih =>
    obtain ⟨k, v⟩ := kv
    rw [malformedVisibleKVs, Bool.or_eq_true] at h
    rcases h with h1 | h2
    · exact ⟨(k, v), by simp, h1⟩
    · obtain ⟨q, hq, hm⟩ := ih h2
      exact ⟨q, by simp [hq], hm⟩

theorem swWalkList_error {reg : TypeRegistry} {xs : List Doc}
    (hx : ∃ x ∈ xs, ∃ e, swWalk reg x = .error e) :
    ∃ e, swWalkList reg xs = .error e := by
  induction xs with
  | nil => simp at hx
  | cons y ys ih =>
    obtain ⟨x, hm, e, he⟩ := hx
    rcases List.mem_cons.mp hm with rfl | m
    · exact ⟨e, by simp [swWalkList, he]⟩
    · cases hy : swWalk reg y with
      | error e2 => exact ⟨e2, by simp [swWalkList, hy]⟩
      | ok y2 =>
        obtain ⟨e3, h3⟩ := ih ⟨x, m, e, he⟩
        exact ⟨e3, by simp [swWalkList, hy, h3]⟩

theorem swWalkKVs_error {reg : TypeRegistry} {kvs : List (Key × Doc)}
    (hx : ∃ kv ∈ kvs, ∃ e, swWalk reg kv.2 = .error e) :
    ∀ acc, ∃ e, swWalkKVs reg acc kvs = .error e := by
  induction kvs with
  | nil => simp at hx
  | cons kv kvs ih =>
    intro acc
    obtain ⟨q, hm, e, he⟩ := hx
    obtain ⟨k, v⟩ := kv
    rcases List.mem_cons.mp hm with rfl | m
    · exact ⟨e, by simp [swWalkKVs, he]⟩
    · cases hv : swWalk reg v with
      | error e2 => exact ⟨e2, by simp [swWalkKVs, hv]⟩
      | ok v2 =>
        cases hk : loadKey k with
        | error e2 => exact ⟨e2, by simp [swWalkKVs, hv, hk]⟩
        | ok k2 =>
          obtain ⟨e3, h3⟩ := ih ⟨q, m, e, he⟩ (insertKV acc k2 v2)
          exact ⟨e3, by simp [swWalkKVs, hv, hk, h3]⟩

theorem swWalkValueOf_error {reg : TypeRegistry} {kvs : List (Key × Doc)}
    (hv : ∀ kv ∈ kvs, malformedVisible kv.2 = true →
      ∃ e, swWalk reg kv.2 = .error e)
    (h : malformedValueOf kvs = true) :
    ∃ e, swWalkValueOf reg kvs = .error e := by
  induction kvs with
  | nil => exact ⟨.keyError "_value", rfl⟩
  | cons kv kvs ih =>
    obtain ⟨k, v⟩ := kv
    rw [malformedValueOf] at h
    by_cases hk : k = Key.str "_value"
    · rw [if_pos hk] at h
      obtain ⟨e, he⟩ := hv (k, v) (by simp) h
      exact ⟨e, by simp [swWalkValueOf, hk, he]⟩
    · rw [if_neg hk] at h
      obtain ⟨e, he⟩ := ih (fun q hq hm => hv q (by simp [hq]) hm) h
      exact ⟨e, by simp [swWalkValueOf, hk, he]⟩

theorem swWalk_error_of_malformedVisible (reg : TypeRegistry) :
    ∀ d, malformedVisible d = true → ∃ e, swWalk reg d = .error e := by
  refine doc_strongInd _ ?_
  intro d ih h
  cases d with
  | dict hd kvs =>
    rw [malformedVisible] at h
    have ihv : ∀ kv ∈ kvs, malformedVisible kv.2 = true →
        ∃ e, swWalk reg kv.2 = .error e := by
      intro kv hkv hm
      exact ih kv.2
        (by
          have := sizeOf_snd_lt_of_mem_kvs (k := kv.1) (v := kv.2) hkv
          simp
          omega) hm
    by_cases hset : lookupKV kvs (Key.str "_type") = some (Doc.str "set")
        ∨ lookupKV kvs (Key.str "_type") = some (Doc.str "frozenset")
    · rw [if_pos hset] at h
      obtain ⟨e, he⟩ := swWalkValueOf_error ihv h
      rcases hset with hs | hf
      · exact ⟨e, by simp [swWalk, hs, he]⟩
      · have hns : ¬ (lookupKV kvs (Key.str "_type") = some (Doc.str "set")) := by
          rw [hf]
          simp
        exact ⟨e, by simp [swWalk, hns, hf, he]⟩
    · rw [if_neg hset] at h
      push_neg at hset
      obtain ⟨q, hq, hm⟩ := malformedVisibleKVs_exists h
      obtain ⟨e0, he0⟩ := ihv q hq hm
      obtain ⟨e, he⟩ := swWalkKVs_error ⟨q, hq, e0, he0⟩ []
      exact ⟨e, by simp [swWalk, hset.1, hset.2, he]⟩
  | list xs =>
    rw [malformedVisible] at h
    obtain ⟨x, hx, hm⟩ := malformedVisibleList_exists h
    have hsx : sizeOf x < sizeOf (Doc.list xs) := by
      have := sizeOf_lt_of_mem_list hx
      simp
      omega
    obtain ⟨e0, he0⟩ := ih x hsx hm
    obtain ⟨e, he⟩ := swWalkList_error ⟨x, hx, e0, he0⟩
    exact ⟨e, by simp [swWalk, he]⟩
  | null => simp [malformedVisible] at h
  | bool b => simp [malformedVisible] at h
  | int n => simp [malformedVisible] at h
  | str s => simp [malformedVisible] at h
  | date y m dd => simp [malformedVisible] at h
  | path p => simp [malformedVisible] at h
  | symbol l => simp [malformedVisible] at h
  | set xs => simp [malformedVisible] at h
  | fset xs => simp [malformedVisible] at h
  | inst t fs => simp [malformedVisible] at h

/-! ### Concrete registries for witnesses -/

/-- An empty registry: no domain types registered. -/
def regEmpty : TypeRegistry := ⟨[], fun _ => false, fun _ _ => 0⟩

/-- A registry with one hash-supporting domain type `Widget`. -/
def regWidget : TypeRegistry := ⟨["Widget"], fun _ => true, fun _ _ => 7⟩

/-! ### Claim C3 -/

/-- C3 (amended): whenever a set/frozenset-tagged mapping with no
`"_value"` entry occurs at a position that
`StorageFormat.to_working_format` actually visits, the conversion
surfaces a structural error (it never silently yields an empty set
there).  Positions inside a non-`"_value"` field of another
set/frozenset-tagged mapping are not visited: that whole field is
dropped, which is what the counterexample exhibits. -/
theorem c3_malformed_set_tag_errors (reg : TypeRegistry) (d : Doc)
    (h : malformedVisible d = true) :
    ∃ e, StorageFormat.to_working_format reg d = .error e :=
  swWalk_error_of_malformedVisible reg d h

/-- C3 witness: the spec's own negative scenario, the document
`{"_type": "set"}`, satisfies the hypothesis and raises. -/
theorem c3_witness :
    malformedVisible (.dict false [(Key.str "_type", Doc.str "set")]) = true ∧
    ∃ e, StorageFormat.to_working_format regEmpty
      (.dict false [(Key.str "_type", Doc.str "set")]) = .error e :=
  ⟨rfl, c3_malformed_set_tag_errors regEmpty
    (.dict false [(Key.str "_type", Doc.str "set")]) rfl⟩

/-- C3 counterexample to the claim as frozen: this Storage-stage
document contains (as a subterm) the tagged mapping `{"_type": "set"}`
with no `"_value"`, yet `StorageFormat.to_working_format` succeeds —
the malformed mapping sits in an extra non-`"_value"` field of a
well-formed set-tagged mapping, and that field is silently dropped. -/
theorem c3_counterexample :
    containsMalformedSetTag
      (.dict false [(Key.str "_type", Doc.str "set"),
                    (Key.str "_value", Doc.list []),
                    (Key.str "x", Doc.dict false [(Key.str "_type", Doc.str "set")])])
        = true ∧
    StorageFormat.to_working_format regEmpty
      (.dict false [(Key.str "_type", Doc.str "set"),
                    (Key.str "_value", Doc.list []),
                    (Key.str "x", Doc.dict false [(Key.str "_type", Doc.str "set")])])
        = .ok (.set []) :=
  ⟨rfl, rfl⟩

/-! ### The exact Storage → Working → Storage round trip (C1) -/

theorem keyNodupB_iff {kvs : List (Key × Doc)} :
    keyNodupB kvs = true ↔ (kvs.map Prod.fst).Nodup := by
  induction kvs with
  | nil => simp [keyNodupB]
  | cons kv kvs ih =>
    obtain ⟨k, v⟩ := kv
    rw [keyNodupB, Bool.and_eq_true]
    simp only [List.map_cons, List.nodup_cons, ← ih,
      Bool.not_eq_eq_eq_not, Bool.not_true]
    rw [contains_false_iff]

theorem tagNotSetFS_iff {kvs : List (Key × Doc)} :
    tagNotSetFS kvs = true ↔
    lookupKV kvs (Key.str "_type") ≠ some (Doc.str "set") ∧
    lookupKV kvs (Key.str "_type") ≠ some (Doc.str "frozenset") := by
  rw [tagNotSetFS, Bool.and_eq_true]
  simp

theorem storageKeyOkB_iff {k : Key} :
    storageKeyOkB k = true ↔ ∃ s, k = Key.str s ∧ ('.') ∉ s.data := by
  cases k with
  | str s =>
    simp only [storageKeyOkB, Bool.not_eq_eq_eq_not, Bool.not_true]
    rw [contains_false_iff]
    simp
  | symbol l => simp [storageKeyOkB]

/-- Walked pairs of a Storage dict: each value round-trips and each key
is the dot-unescape of the original, so re-applying
`WorkingFormat.to_storage_format`'s key map and value walk restores the
original pair list. -/
theorem swWalkPairs_roundtrip {reg : TypeRegistry} {kvs : List (Key × Doc)}
    (hv : ∀ kv ∈ kvs, (swWalk reg kv.2).map wsWalk = .ok kv.2)
    (hk : ∀ kv ∈ kvs, storageKeyOkB kv.1 = true) :
    ∃ ps, swWalkPairs reg kvs = .ok ps ∧
      ps.map (fun p => (map_key p.1, wsWalk p.2)) = kvs := by
  induction kvs with
  | nil => exact ⟨[], rfl, rfl⟩
  | cons kv kvs ih =>
    obtain ⟨k, v⟩ := kv
    obtain ⟨s, rfl, hs⟩ := storageKeyOkB_iff.mp (hk (k, v) (by simp))
    have hv1 := hv (Key.str s, v) (by simp)
    cases hsw : swWalk reg v with
    | error e => rw [hsw] at hv1; simp at hv1
    | ok v2 =>
      rw [hsw] at hv1
      simp only [exceptMap_ok, Except.ok.injEq] at hv1
      obtain ⟨ps, hps, hmap⟩ :=
        ih (fun q hq => hv q (by simp [hq])) (fun q hq => hk q (by simp [hq]))
      refine ⟨(Key.str (pyReplaceChar '．' '.' s), v2) :: ps, ?_, ?_⟩
      · simp [swWalkPairs, hsw, loadKey, hps]
      · rw [List.map_cons, hmap]
        simp only [map_key]
        rw [replace_roundtrip hs, hv1]

theorem swWalkList_roundtrip {reg : TypeRegistry} {xs : List Doc}
    (h : ∀ x ∈ xs, (swWalk reg x).map wsWalk = .ok x) :
    (swWalkList reg xs).map wsWalkList = .ok xs := by
  induction xs with
  | nil => rfl
  | cons x xs ih =>
    have h1 := h x (by simp)
    cases hsw : swWalk reg x with
    | error e => rw [hsw] at h1; simp at h1
    | ok y =>
      rw [hsw] at h1
      simp only [exceptMap_ok, Except.ok.injEq] at h1
      have h2 := ih (fun z hz => h z (by simp [hz]))
      cases hsl : swWalkList reg xs with
      | error e => rw [hsl] at h2; simp at h2
      | ok ys =>
        rw [hsl] at h2
        simp only [exceptMap_ok, Except.ok.injEq] at h2
        simp [swWalkList, hsw, hsl, wsWalkList, h1, h2]

theorem storage_roundtrip (reg : TypeRegistry) :
    ∀ d, storageWF d = true → (swWalk reg d).map wsWalk = .ok d := by
  refine doc_strongInd _ ?_
  intro d ih h
  cases d with
  | null => rfl
  | bool b => rfl
  | int n => rfl
  | str s => rfl
  | date y m dd => rfl
  | path p => simp [storageWF] at h
  | symbol l => simp [storageWF] at h
  | set xs => simp [storageWF] at h
  | fset xs => simp [storageWF] at h
  | inst t fs => simp [storageWF] at h
  | list xs =>
    rw [storageWF] at h
    have hx : ∀ x ∈ xs, (swWalk reg x).map wsWalk = .ok x := by
      intro x hxm
      refine ih x ?_ (storageWFList_forall h x hxm)
      have := sizeOf_lt_of_mem_list hxm
      simp
      omega
    have h2 := swWalkList_roundtrip hx
    cases hsl : swWalkList reg xs with
    | error e => rw [hsl] at h2; simp at h2
    | ok ys =>
      rw [hsl] at h2
      simp only [exceptMap_ok, Except.ok.injEq] at h2
      simp [swWalk, hsl, wsWalk, h2]
  | dict hd kvs =>
    rw [storageWF] at h
    simp only [Bool.and_eq_true] at h
    obtain ⟨⟨⟨⟨hhd, hkeys⟩, hnd⟩, htag⟩, hvals⟩ := h
    have hhd2 : hd = false := by simpa using hhd
    subst hhd2
    obtain ⟨hset, hfs⟩ := tagNotSetFS_iff.mp htag
    have hv : ∀ kv ∈ kvs, (swWalk reg kv.2).map wsWalk = .ok kv.2 := by
      intro kv hkv
      refine ih kv.2 ?_ (storageWFKVs_forall hvals kv hkv)
      have := sizeOf_snd_lt_of_mem_kvs (k := kv.1) (v := kv.2) hkv
      simp
      omega
    have hk : ∀ kv ∈ kvs, storageKeyOkB kv.1 = true := by
      intro kv hkv
      exact List.all_eq_true.mp hkeys kv hkv
    obtain ⟨ps, hps, hmap⟩ := swWalkPairs_roundtrip hv hk
    have hpsnd : keyNodupB ps = true := by
      rw [keyNodupB_iff]
      have hndk : (kvs.map Prod.fst).Nodup := keyNodupB_iff.mp hnd
      have e1 : (ps.map Prod.fst).map map_key = kvs.map Prod.fst := by
        have := congrArg (List.map Prod.fst) hmap
        simpa [List.map_map, Function.comp] using this
      exact List.Nodup.of_map map_key (e1 ▸ hndk)
    rw [swWalk, if_neg hset, if_neg hfs, swWalkKVs_eq_pairs, hps]
    simp only [exceptMap_ok]
    rw [foldl_insertKV ps [] (by simp) hpsnd]
    simp only [List.nil_append, exceptBind_ok, exceptMap_ok, Except.ok.injEq]
    simp only [wsWalk]
    rw [wsWalkKVs_eq_pairs]
    have hwsp : wsWalkPairs ps = kvs := hmap
    rw [hwsp, foldl_insertKV kvs [] (by simp) hnd]
    simp

/-! ### Claim C1 -/

/-- C1 (amended): for every Storage-stage document free of the
`"_type"`-field ambiguity that contains no set/frozenset-tagged mapping
(plain dicts with unique dot-free string keys, lists, scalars — and in
particular Path-tagged and unknown-tagged mappings anywhere),
`store (load d)) = d` exactly.  For set/frozenset-tagged mappings the
`"_value"` list is rebuilt from a set, so the exact list does not
survive (see the counterexample: duplicates collapse). -/
theorem c1_store_load_exact_roundtrip (reg : TypeRegistry) (d : Doc)
    (h : storageWF d = true) : (load reg d).map store = .ok d :=
  storage_roundtrip reg d h

/-- C1 witness: a storage document exercising encoded dots, a
Path-tagged mapping with a hash field and nested lists round-trips
exactly. -/
theorem c1_witness :
    storageWF
      (.dict false [(Key.str "a．b", Doc.int 3),
                    (Key.str "p", Doc.dict false
                      [(Key.str "_type", Doc.str "Path"),
                       (Key.str "_value", Doc.str "/x/y"),
                       (Key.str "_hash", Doc.int 5)]),
                    (Key.str "l", Doc.list [Doc.null, Doc.date 2024 1 5])]) = true ∧
    (load regEmpty
      (.dict false [(Key.str "a．b", Doc.int 3),
                    (Key.str "p", Doc.dict false
                      [(Key.str "_type", Doc.str "Path"),
                       (Key.str "_value", Doc.str "/x/y"),
                       (Key.str "_hash", Doc.int 5)]),
                    (Key.str "l", Doc.list [Doc.null, Doc.date 2024 1 5])])).map store
      = .ok
      (.dict false [(Key.str "a．b", Doc.int 3),
                    (Key.str "p", Doc.dict false
                      [(Key.str "_type", Doc.str "Path"),
                       (Key.str "_value", Doc.str "/x/y"),
                       (Key.str "_hash", Doc.int 5)]),
                    (Key.str "l", Doc.list [Doc.null, Doc.date 2024 1 5])]) :=
  ⟨rfl, c1_store_load_exact_roundtrip regEmpty
    (.dict false [(Key.str "a．b", Doc.int 3),
                  (Key.str "p", Doc.dict false
                    [(Key.str "_type", Doc.str "Path"),
                     (Key.str "_value", Doc.str "/x/y"),
                     (Key.str "_hash", Doc.int 5)]),
                  (Key.str "l", Doc.list [Doc.null, Doc.date 2024 1 5])]) rfl⟩

/-- C1 counterexample to the claim as frozen: the Storage-stage document
`{"_type": "set", "_value": [1, 1]}` is free of `"_type"`-field
ambiguity (the tag is a legitimate set encoding), yet
`store (load d))` returns `{"_type": "set", "_value": [1]}` — the
`"_value"` element list is not reproduced: the elements pass through a
Python set, so duplicates collapse (and the emitted order is the set's
iteration order, not the stored list order). -/
theorem c1_counterexample :
    (load regEmpty
      (.dict false [(Key.str "_type", Doc.str "set"),
                    (Key.str "_value", Doc.list [Doc.int 1, Doc.int 1])])).map store
      = .ok (.dict false [(Key.str "_type", Doc.str "set"),
                          (Key.str "_value", Doc.list [Doc.int 1])]) ∧
    (Doc.dict false [(Key.str "_type", Doc.str "set"),
                     (Key.str "_value", Doc.list [Doc.int 1])])
      ≠ (Doc.dict false [(Key.str "_type", Doc.str "set"),
                         (Key.str "_value", Doc.list [Doc.int 1, Doc.int 1])]) :=
  ⟨rfl, by decide⟩

/-! ### The Working → Storage → Working round trip (C2) -/

theorem workingKeyOkB_iff {k : Key} :
    workingKeyOkB k = true ↔ ∃ s, k = Key.str s ∧ ('．') ∉ s.data := by
  cases k with
  | str s =>
    simp only [workingKeyOkB, Bool.not_eq_eq_eq_not, Bool.not_true]
    rw [contains_false_iff]
    simp
  | symbol l => simp [workingKeyOkB]

theorem wsWalk_eq_str {v : Doc} {s : String} (h : wsWalk v = .str s) :
    v = .str s := by
  cases v <;> simp_all [wsWalk]

/-- `map_key` sends a working key to `"_type"` only if it was
`"_type"`. -/
theorem map_key_eq_type_iff {k : Key} (hk : workingKeyOkB k = true) :
    map_key k = Key.str "_type" ↔ k = Key.str "_type" := by
  obtain ⟨s, rfl, hs⟩ := workingKeyOkB_iff.mp hk
  simp only [map_key, Key.str.injEq]
  rw [replace_eq_iff (by decide) (by decide)]

theorem lookupKV_wsWalkPairs_type {kvs : List (Key × Doc)}
    (hk : ∀ kv ∈ kvs, workingKeyOkB kv.1 = true) :
    lookupKV (wsWalkPairs kvs) (Key.str "_type") =
      (lookupKV kvs (Key.str "_type")).map wsWalk := by
  induction kvs with
  | nil => rfl
  | cons kv kvs ih =>
    obtain ⟨k, v⟩ := kv
    have hk1 := hk (k, v) (by simp)
    by_cases he : k = Key.str "_type"
    · subst he
      have : map_key (Key.str "_type") = Key.str "_type" :=
        (map_key_eq_type_iff hk1).mpr rfl
      simp [wsWalkPairs, lookupKV, this]
    · have hne : ¬ (map_key k = Key.str "_type") :=
        fun e => he ((map_key_eq_type_iff hk1).mp e)
      simp only [wsWalkPairs, List.map_cons, lookupKV, if_neg hne, if_neg he]
      exact ih (fun q hq => hk q (by simp [hq]))

theorem swWalkList_of_wsWalkList {reg : TypeRegistry} {xs : List Doc}
    (h : ∀ x ∈ xs, swWalk reg (wsWalk x) = .ok x) :
    swWalkList reg (wsWalkList xs) = .ok xs := by
  induction xs with
  | nil => rfl
  | cons x xs ih =>
    simp [wsWalkList, swWalkList, h x (by simp),
      ih (fun z hz => h z (by simp [hz]))]

theorem swWalkPairs_of_wsWalkPairs {reg : TypeRegistry}
    {kvs : List (Key × Doc)}
    (hv : ∀ kv ∈ kvs, swWalk reg (wsWalk kv.2) = .ok kv.2)
    (hk : ∀ kv ∈ kvs, workingKeyOkB kv.1 = true) :
    swWalkPairs reg (wsWalkPairs kvs) = .ok kvs := by
  induction kvs with
  | nil => rfl
  | cons kv kvs ih =>
    obtain ⟨k, v⟩ := kv
    obtain ⟨s, rfl, hs⟩ := workingKeyOkB_iff.mp (hk (k, v) (by simp))
    have hv1 : swWalk reg (wsWalk v) = .ok v := hv (Key.str s, v) (by simp)
    have ih2 := ih (fun q hq => hv q (by simp [hq])) (fun q hq => hk q (by simp [hq]))
    simp only [wsWalkPairs, List.map_cons] at ih2 ⊢
    have hmk : map_key (Key.str s) = Key.str (pyReplaceChar '.' '．' s) := rfl
    simp only [swWalkPairs, hmk, loadKey, hv1, exceptBind_ok, ih2]
    rw [replace_roundtrip hs]

theorem setElemsOk_workingWF {x : Doc} (h : setElemsOk x = true) :
    workingWF x = true := by
  cases x <;> simp_all [setElemsOk, workingWF]

theorem working_roundtrip (reg : TypeRegistry) :
    ∀ w, workingWF w = true → swWalk reg (wsWalk w) = .ok w := by
  refine doc_strongInd _ ?_
  intro w ih h
  cases w with
  | null => rfl
  | bool b => rfl
  | int n => rfl
  | str s => rfl
  | date y m dd => rfl
  | path p => simp [workingWF] at h
  | symbol l => simp [workingWF] at h
  | inst t fs => simp [workingWF] at h
  | list xs =>
    rw [workingWF] at h
    have hx : ∀ x ∈ xs, swWalk reg (wsWalk x) = .ok x := by
      intro x hxm
      refine ih x ?_ (workingWFList_forall h x hxm)
      have := sizeOf_lt_of_mem_list hxm
      simp
      omega
    simp [wsWalk, swWalk, swWalkList_of_wsWalkList hx]
  | set xs =>
    rw [workingWF, Bool.and_eq_true] at h
    have hx : ∀ x ∈ xs, swWalk reg (wsWalk x) = .ok x := by
      intro x hxm
      refine ih x ?_ (setElemsOk_workingWF (setElemsOkList_forall h.1 x hxm))
      have := sizeOf_lt_of_mem_list hxm
      simp
      omega
    have hh : pyHashableList reg xs = true :=
      pyHashableList_of_forall
        (fun x hxm => setElemsOk_hashable reg x (setElemsOkList_forall h.1 x hxm))
    have hred : swWalk reg (wsWalk (.set xs)) =
        (swWalk reg (.list (wsWalkList xs))) >>= pySet reg := rfl
    rw [hred]
    have hlist : swWalk reg (.list (wsWalkList xs)) =
        .ok (.list xs) := by
      simp [swWalk, swWalkList_of_wsWalkList hx]
    rw [hlist]
    simp [pySet, pyIter, pySetL, hh, pyDedup_eq_self h.2]
  | fset xs =>
    rw [workingWF, Bool.and_eq_true] at h
    have hx : ∀ x ∈ xs, swWalk reg (wsWalk x) = .ok x := by
      intro x hxm
      refine ih x ?_ (setElemsOk_workingWF (setElemsOkList_forall h.1 x hxm))
      have := sizeOf_lt_of_mem_list hxm
      simp
      omega
    have hh : pyHashableList reg xs = true :=
      pyHashableList_of_forall
        (fun x hxm => setElemsOk_hashable reg x (setElemsOkList_forall h.1 x hxm))
    have hred : swWalk reg (wsWalk (.fset xs)) =
        (swWalk reg (.list (wsWalkList xs))) >>= pyFrozenset reg := rfl
    rw [hred]
    have hlist : swWalk reg (.list (wsWalkList xs)) =
        .ok (.list xs) := by
      simp [swWalk, swWalkList_of_wsWalkList hx]
    rw [hlist]
    simp [pyFrozenset, pyIter, pyFrozensetL, hh, pyDedup_eq_self h.2]
  | dict hd kvs =>
    rw [workingWF] at h
    simp only [Bool.and_eq_true] at h
    obtain ⟨⟨⟨⟨hhd, hkeys⟩, hnd⟩, htag⟩, hvals⟩ := h
    have hhd2 : hd = false := by simpa using hhd
    subst hhd2
    have hkf : ∀ kv ∈ kvs, workingKeyOkB kv.1 = true :=
      fun kv hkv => List.all_eq_true.mp hkeys kv hkv
    have hv : ∀ kv ∈ kvs, swWalk reg (wsWalk kv.2) = .ok kv.2 := by
      intro kv hkv
      refine ih kv.2 ?_ (workingWFKVs_forall hvals kv hkv)
      have := sizeOf_snd_lt_of_mem_kvs (k := kv.1) (v := kv.2) hkv
      simp
      omega
    obtain ⟨hset, hfs⟩ := tagNotSetFS_iff.mp htag
    have hpsnd : keyNodupB (wsWalkPairs kvs) = true := by
      rw [keyNodupB_iff]
      have e1 : (wsWalkPairs kvs).map Prod.fst = (kvs.map Prod.fst).map map_key := by
        simp [wsWalkPairs, List.map_map, Function.comp]
      rw [e1]
      refine List.Nodup.map_on ?_ (keyNodupB_iff.mp hnd)
      intro k1 h1 k2 h2 he
      obtain ⟨q1, hq1, e1'⟩ := List.mem_map.mp h1
      obtain ⟨q2, hq2, e2'⟩ := List.mem_map.mp h2
      obtain ⟨s1, e1s, hs1⟩ := workingKeyOkB_iff.mp (hkf q1 hq1)
      obtain ⟨s2, e2s, hs2⟩ := workingKeyOkB_iff.mp (hkf q2 hq2)
      rw [← e1', ← e2', e1s, e2s] at he ⊢
      simp only [map_key, Key.str.injEq] at he
      have : s1 = s2 := by
        have r1 := replace_roundtrip (a := '.') (b := '．') hs1
        have r2 := replace_roundtrip (a := '.') (b := '．') hs2
        rw [← r1, ← r2, he]
      rw [this]
    have hlook := lookupKV_wsWalkPairs_type hkf
    have hbr1 : ¬ (lookupKV (wsWalkPairs kvs) (Key.str "_type")
        = some (Doc.str "set")) := by
      rw [hlook]
      cases hc : lookupKV kvs (Key.str "_type") with
      | none => simp
      | some v =>
        intro e
        have e2 : wsWalk v = Doc.str "set" := by simpa using e
        have := wsWalk_eq_str e2
        exact hset (by rw [hc, this])
    have hbr2 : ¬ (lookupKV (wsWalkPairs kvs) (Key.str "_type")
        = some (Doc.str "frozenset")) := by
      rw [hlook]
      cases hc : lookupKV kvs (Key.str "_type") with
      | none => simp
      | some v =>
        intro e
        have e2 : wsWalk v = Doc.str "frozenset" := by simpa using e
        have := wsWalk_eq_str e2
        exact hfs (by rw [hc, this])
    simp only [wsWalk]
    rw [wsWalkKVs_eq_pairs, foldl_insertKV (wsWalkPairs kvs) [] (by simp) hpsnd]
    simp only [List.nil_append]
    rw [swWalk, if_neg hbr1, if_neg hbr2, swWalkKVs_eq_pairs,
      swWalkPairs_of_wsWalkPairs hv hkf]
    simp only [exceptMap_ok, exceptBind_ok]
    rw [foldl_insertKV kvs [] (by simp) hnd]
    simp

/-! ### Claim C2 -/

/-- C2 (amended): `load (store w) = w` for every Working-stage document
built from scalars, lists, sets/frozensets of duplicate-free
scalar-or-frozenset elements, and plain dicts with unique string keys —
provided no mapping carries a `"_type"` entry equal to `"set"` or
`"frozenset"` (the I2 ambiguity) and no key contains the reserved
dot-substitute character.  Sets come back as sets with the same
elements and dotted keys come back verbatim. -/
theorem c2_load_store_roundtrip (reg : TypeRegistry) (w : Doc)
    (h : workingWF w = true) : load reg (store w) = .ok w :=
  working_roundtrip reg w h

/-- C2 witness: the spec's concrete scenario
`{"a.b": {1, 2}, "p": <path-tagged mapping>}` round-trips, the set
reconstructed and the dotted key restored verbatim. -/
theorem c2_witness :
    workingWF
      (.dict false [(Key.str "a.b", Doc.set [Doc.int 1, Doc.int 2]),
                    (Key.str "p", Doc.dict false
                      [(Key.str "_type", Doc.str "Path"),
                       (Key.str "_value", Doc.str "/x/y")])]) = true ∧
    load regEmpty (store
      (.dict false [(Key.str "a.b", Doc.set [Doc.int 1, Doc.int 2]),
                    (Key.str "p", Doc.dict false
                      [(Key.str "_type", Doc.str "Path"),
                       (Key.str "_value", Doc.str "/x/y")])]))
      = .ok
      (.dict false [(Key.str "a.b", Doc.set [Doc.int 1, Doc.int 2]),
                    (Key.str "p", Doc.dict false
                      [(Key.str "_type", Doc.str "Path"),
                       (Key.str "_value", Doc.str "/x/y")])]) :=
  ⟨rfl, c2_load_store_roundtrip regEmpty
    (.dict false [(Key.str "a.b", Doc.set [Doc.int 1, Doc.int 2]),
                  (Key.str "p", Doc.dict false
                    [(Key.str "_type", Doc.str "Path"),
                     (Key.str "_value", Doc.str "/x/y")])]) rfl⟩

/-- C2 counterexample to the claim as frozen: the Working-stage document
`{"_type": "set", "_value": []}` contains only Document-shaped values
(it is a plain dict of strings and a list), `store` leaves it unchanged,
but `load` then decodes it as an empty set — `load (store w) ≠ w`. -/
theorem c2_counterexample :
    load regEmpty (store
      (.dict false [(Key.str "_type", Doc.str "set"),
                    (Key.str "_value", Doc.list [])]))
      = .ok (Doc.set []) ∧
    Doc.set []
      ≠ Doc.dict false [(Key.str "_type", Doc.str "set"),
                        (Key.str "_value", Doc.list [])] :=
  ⟨rfl, by decide⟩

/-! ### Claim C6 -/

/-- C6 (confirmed): `WorkingFormat.to_raw_format` turns every
Path-tagged mapping into a native path built from its `"_value"`
string, and keeps sets/frozensets as sets/frozensets of the recursively
converted elements; inversely, `RawFormat.to_working_format` turns a
native path into the hash-carrying tagged mapping
`{"_type": "Path", "_value": str(path), "_hash": hash(path)}`, which is
hashable. -/
theorem c6_path_conversion (reg : TypeRegistry) :
    (∀ (hd : Bool) kvs s,
      lookupKV kvs (Key.str "_type") = some (Doc.str "Path") →
      lookupKV kvs (Key.str "_value") = some (Doc.str s) →
      WorkingFormat.to_raw_format reg (.dict hd kvs) = .ok (.path s)) ∧
    (∀ xs ys, wrWalkList reg xs = .ok ys → pyHashableList reg ys = true →
      WorkingFormat.to_raw_format reg (.set xs) = .ok (.set (pyDedup ys))) ∧
    (∀ xs ys, wrWalkList reg xs = .ok ys → pyHashableList reg ys = true →
      WorkingFormat.to_raw_format reg (.fset xs) = .ok (.fset (pyDedup ys))) ∧
    (∀ p, RawFormat.to_working_format reg (.path p) =
        .ok (.dict true [(Key.str "_type", Doc.str "Path"),
                         (Key.str "_value", Doc.str p),
                         (Key.str "_hash", Doc.int (pathHash p))]) ∧
      pyHashable reg (.dict true [(Key.str "_type", Doc.str "Path"),
                         (Key.str "_value", Doc.str p),
                         (Key.str "_hash", Doc.int (pathHash p))]) = true) := by
  refine ⟨?_, ?_, ?_, ?_⟩
  · intro hd kvs s h1 h2
    simp only [WorkingFormat.to_raw_format, wrWalk, if_pos h1, h2]
  · intro xs ys h1 h2
    simp only [WorkingFormat.to_raw_format, wrWalk, h1, exceptBind_ok,
      pySetL, if_pos h2]
  · intro xs ys h1 h2
    simp only [WorkingFormat.to_raw_format, wrWalk, h1, exceptBind_ok,
      pyFrozensetL, if_pos h2]
  · intro p
    exact ⟨rfl, rfl⟩

/-- C6 witness: the conversions evaluated on `{"_type": "Path",
"_value": "/x/y"}`, on `{1}` and on the native path `/x/y`. -/
theorem c6_witness :
    WorkingFormat.to_raw_format regEmpty
      (.dict true [(Key.str "_type", Doc.str "Path"),
                   (Key.str "_value", Doc.str "/x/y"),
                   (Key.str "_hash", Doc.int 5)]) = .ok (.path "/x/y") ∧
    WorkingFormat.to_raw_format regEmpty (.set [Doc.int 1])
      = .ok (.set [Doc.int 1]) ∧
    RawFormat.to_working_format regEmpty (.path "/x/y")
      = .ok (.dict true [(Key.str "_type", Doc.str "Path"),
                         (Key.str "_value", Doc.str "/x/y"),
                         (Key.str "_hash", Doc.int (pathHash "/x/y"))]) :=
  ⟨(c6_path_conversion regEmpty).1 true
      [(Key.str "_type", Doc.str "Path"),
       (Key.str "_value", Doc.str "/x/y"),
       (Key.str "_hash", Doc.int 5)] "/x/y" rfl rfl,
   (c6_path_conversion regEmpty).2.1 [Doc.int 1] [Doc.int 1] rfl rfl,
   ((c6_path_conversion regEmpty).2.2.2 "/x/y").1⟩

/-! ### Claim C7 -/

theorem orWalkSFs_keys {reg : TypeRegistry} :
    ∀ {fs wf : List (String × Doc)}, orWalkSFs reg fs = .ok wf →
    wf.map Prod.fst = fs.map Prod.fst := by
  intro fs
  induction fs with
  | nil =>
    intro wf h
    simp only [orWalkSFs, Except.ok.injEq] at h
    rw [← h]
  | cons kv fs ih =>
    intro wf h
    obtain ⟨k, v⟩ := kv
    simp only [orWalkSFs] at h
    cases hv : orWalk reg v with
    | error e => rw [hv] at h; simp at h
    | ok v2 =>
      rw [hv] at h
      cases hr : orWalkSFs reg fs with
      | error e => rw [hr] at h; simp at h
      | ok rest2 =>
        rw [hr] at h
        simp only [exceptBind_ok, Except.ok.injEq] at h
        rw [← h]
        simp [ih hr]

theorem sfNodupB_head {k : String} {v : Doc} {fs : List (String × Doc)}
    (h : sfNodupB ((k, v) :: fs) = true) :
    k ∉ fs.map Prod.fst ∧ sfNodupB fs = true := by
  rw [sfNodupB, Bool.and_eq_true] at h
  refine ⟨?_, h.2⟩
  have := h.1
  simp only [Bool.not_eq_eq_eq_not, Bool.not_true] at this
  exact contains_false_iff.mp this

theorem sfNodupB_of_keys_eq :
    ∀ {fs wf : List (String × Doc)},
    wf.map Prod.fst = fs.map Prod.fst → sfNodupB fs = true →
    sfNodupB wf = true := by
  intro fs
  induction fs with
  | nil =>
    intro wf hk _
    cases wf with
    | nil => rfl
    | cons q qs => simp at hk
  | cons p rest ih =>
    intro wf hk hnd
    cases wf with
    | nil => rfl
    | cons q qs =>
      obtain ⟨k, v⟩ := p
      obtain ⟨k2, v2⟩ := q
      simp only [List.map_cons, List.cons.injEq] at hk
      obtain ⟨hnd1, hnd2⟩ := sfNodupB_head hnd
      rw [sfNodupB, Bool.and_eq_true]
      constructor
      · simp only [Bool.not_eq_eq_eq_not, Bool.not_true]
        rw [contains_false_iff]
        intro m
        rw [hk.2, hk.1] at m
        exact hnd1 m
      · exact ih hk.2 hnd2

theorem mergeSFs_eq_append :
    ∀ (wf : List (String × Doc)) (base : List (Key × Doc)),
    (∀ p ∈ wf, Key.str p.1 ∉ base.map Prod.fst) → sfNodupB wf = true →
    mergeSFs base wf = base ++ wf.map (fun p => (Key.str p.1, p.2)) := by
  intro wf
  induction wf with
  | nil => intro base _ _; simp [mergeSFs]
  | cons p rest ih =>
    intro base hfresh hnd
    obtain ⟨k, v⟩ := p
    obtain ⟨hk, hnd2⟩ := sfNodupB_head hnd
    have e1 : mergeSFs base ((k, v) :: rest) =
        mergeSFs (insertKV base (Key.str k) v) rest := rfl
    rw [e1, insertKV_fresh base (Key.str k) v (hfresh (k, v) (by simp))]
    rw [ih (base ++ [(Key.str k, v)]) ?_ hnd2]
    · simp
    · intro q hq
      simp only [List.map_append, List.mem_append, List.map_cons, List.map_nil,
        List.mem_singleton, not_or]
      refine ⟨fun m => hfresh q (by simp [hq]) (by simpa using m), ?_⟩
      intro e
      simp only [Key.str.injEq] at e
      exact hk (e ▸ List.mem_map_of_mem Prod.fst hq)

/-- C7 (confirmed): when emitting a domain instance,
`ObjFormat.to_raw_format` computes the identity hash first; if the class
supports hashing the emitted mapping is a `hashdict` carrying `"_hash"`
with the computed value, otherwise the `TypeError` is caught and a plain
mapping without `"_hash"` is emitted — the error never reaches the
caller, and apart from the `"_hash"` entry (and the `hashdict` wrapper,
invisible to `==`) the two emissions are identical: the tag and the
walked encoded fields. -/
theorem c7_hash_best_effort (reg : TypeRegistry) (t : String)
    (fields wf : List (String × Doc))
    (hw : orWalkSFs reg fields = .ok wf)
    (hnd : sfNodupB fields = true)
    (hty : "_type" ∉ fields.map Prod.fst)
    (hha : "_hash" ∉ fields.map Prod.fst) :
    (reg.instHashable t = true →
      ObjFormat.to_raw_format reg (.inst t fields) =
        .ok (.dict true ([(Key.str "_type", Doc.str t),
                          (Key.str "_hash", Doc.int (reg.instHash t fields))]
          ++ wf.map (fun p => (Key.str p.1, p.2))))) ∧
    (reg.instHashable t = false →
      ObjFormat.to_raw_format reg (.inst t fields) =
        .ok (.dict false ([(Key.str "_type", Doc.str t)]
          ++ wf.map (fun p => (Key.str p.1, p.2))))) ∧
    eraseKey ([(Key.str "_type", Doc.str t),
               (Key.str "_hash", Doc.int (reg.instHash t fields))]
        ++ wf.map (fun p => (Key.str p.1, p.2))) (Key.str "_hash")
      = [(Key.str "_type", Doc.str t)]
        ++ wf.map (fun p => (Key.str p.1, p.2)) := by
  have hndw : sfNodupB wf = true :=
    sfNodupB_of_keys_eq (orWalkSFs_keys hw) hnd
  have hkeys := orWalkSFs_keys hw
  have hmem : ∀ p ∈ wf, p.1 ∈ fields.map Prod.fst := by
    intro p hp
    rw [← hkeys]
    exact List.mem_map_of_mem Prod.fst hp
  have hfr1 : ∀ p ∈ wf, Key.str p.1
      ∉ ([(Key.str "_type", Doc.str t),
          (Key.str "_hash", Doc.int (reg.instHash t fields))].map Prod.fst) := by
    intro p hp
    have h1 : p.1 ≠ "_type" := fun e => hty (e ▸ hmem p hp)
    have h2 : p.1 ≠ "_hash" := fun e => hha (e ▸ hmem p hp)
    simp [h1, h2]
  have hfr2 : ∀ p ∈ wf, Key.str p.1
      ∉ ([(Key.str "_type", Doc.str t)].map Prod.fst) := by
    intro p hp
    have h1 : p.1 ≠ "_type" := fun e => hty (e ▸ hmem p hp)
    simp [h1]
  refine ⟨?_, ?_, ?_⟩
  · intro hh
    simp only [ObjFormat.to_raw_format, orWalk, hw, exceptBind_ok, hh,
      if_true]
    rw [mergeSFs_eq_append wf _ hfr1 hndw]
  · intro hh
    simp only [ObjFormat.to_raw_format, orWalk, hw, exceptBind_ok, hh,
      Bool.false_eq_true, if_false]
    rw [mergeSFs_eq_append wf _ hfr2 hndw]
  · rfl

/-- A registry whose single type `Widget` does not support hashing. -/
def regNoHash : TypeRegistry := ⟨["Widget"], fun _ => false, fun _ _ => 0⟩

/-- C7 witness: the instance `Widget(n=3)` emitted under a hashing and
under a non-hashing registry. -/
theorem c7_witness :
    ObjFormat.to_raw_format regWidget (.inst "Widget" [("n", Doc.int 3)])
      = .ok (.dict true [(Key.str "_type", Doc.str "Widget"),
                         (Key.str "_hash", Doc.int 7),
                         (Key.str "n", Doc.int 3)]) ∧
    ObjFormat.to_raw_format regNoHash (.inst "Widget" [("n", Doc.int 3)])
      = .ok (.dict false [(Key.str "_type", Doc.str "Widget"),
                          (Key.str "n", Doc.int 3)]) :=
  ⟨(c7_hash_best_effort regWidget "Widget" [("n", Doc.int 3)]
      [("n", Doc.int 3)] rfl rfl (by decide) (by decide)).1 rfl,
   (c7_hash_best_effort regNoHash "Widget" [("n", Doc.int 3)]
      [("n", Doc.int 3)] rfl rfl (by decide) (by decide)).2.1 rfl⟩

/-! ### Claim C8 -/

theorem replace_id {a b : Char} {s : String} (h : a ∉ s.data) :
    pyReplaceChar a b s = s := by
  rw [pyReplaceChar, stringMk_eq_iff]
  have h2 : ∀ c ∈ s.data, (if c = a then b else c) = c := by
    intro c hc
    refine if_neg (fun e2 => h ?_)
    rw [e2] at hc
    exact hc
  rw [List.map_congr_left h2]
  simp

theorem bracket_data (l : String) :
    ("__" ++ l ++ "__").data = '_' :: '_' :: (l.data ++ ['_', '_']) := by
  simp [String.data_append]

theorem bracket_ne_type (l : String) : ("__" ++ l ++ "__") ≠ "_type" := by
  intro e
  have h := congrArg String.data e
  rw [bracket_data] at h
  simp at h

/-- C8 (confirmed): at the Working→Storage boundary every `Symbol`
sentinel key is rendered as the bracketed string `__<label>__`; the
reverse Storage→Working conversion does not rebuild the `Symbol` — the
bracketed string survives as an ordinary string key. -/
theorem c8_symbol_key_asymmetry (reg : TypeRegistry) :
    (∀ l, map_key (Key.symbol l) = Key.str ("__" ++ l ++ "__")) ∧
    (∀ l v, store (.dict false [(Key.symbol l, v)]) =
      .dict false [(Key.str ("__" ++ l ++ "__"), wsWalk v)]) ∧
    (∀ l v w, ('．') ∉ l.data → swWalk reg (wsWalk v) = .ok w →
      load reg (store (.dict false [(Key.symbol l, v)])) =
        .ok (.dict false [(Key.str ("__" ++ l ++ "__"), w)])) := by
  have hstore : ∀ l v, store (.dict false [(Key.symbol l, v)]) =
      .dict false [(Key.str ("__" ++ l ++ "__"), wsWalk v)] := by
    intro l v
    simp [store, WorkingFormat.to_storage_format, wsWalk, wsWalkKVs,
      map_key, insertKV]
  refine ⟨fun l => rfl, hstore, ?_⟩
  intro l v w hl hv
  have hb : ¬ (Key.str ("__" ++ l ++ "__") = Key.str "_type") := by
    simp only [Key.str.injEq]
    exact bracket_ne_type l
  have hbr : ('．') ∉ ("__" ++ l ++ "__").data := by
    rw [bracket_data]
    simp only [List.mem_cons, List.mem_append, List.mem_singleton, not_or]
    refine ⟨by decide, by decide, hl, by decide⟩
  rw [load, StorageFormat.to_working_format, hstore l v]
  simp only [swWalk, lookupKV, if_neg hb]
  simp only [reduceCtorEq, if_false, swWalkKVs, hv, exceptBind_ok, loadKey,
    replace_id hbr, insertKV]

/-- C8 witness: a jsondiff-style `insert` symbol key becomes the string
`"__insert__"` and stays a string key after loading back. -/
theorem c8_witness :
    store (.dict false [(Key.symbol "insert", Doc.int 1)])
      = .dict false [(Key.str "__insert__", Doc.int 1)] ∧
    load regEmpty (store (.dict false [(Key.symbol "insert", Doc.int 1)]))
      = .ok (.dict false [(Key.str "__insert__", Doc.int 1)]) :=
  ⟨(c8_symbol_key_asymmetry regEmpty).2.1 "insert" (Doc.int 1),
   (c8_symbol_key_asymmetry regEmpty).2.2 "insert" (Doc.int 1) (Doc.int 1)
     (by decide) rfl⟩

/-! ### Claim C9 -/

theorem insertSN_idem :
    ∀ (m : List (String × Nat)) (t : String) (d : Nat),
    insertSN (insertSN m t d) t d = insertSN m t d := by
  intro m
  induction m with
  | nil => intro t d; simp [insertSN]
  | cons p rest ih =>
    intro t d
    obtain ⟨k, v⟩ := p
    by_cases hk : k = t
    · simp [insertSN, hk]
    · simp [insertSN, hk, ih]

theorem lookupSN_insertSN :
    ∀ (m : List (String × Nat)) (t : String) (d : Nat),
    lookupSN (insertSN m t d) t = some d := by
  intro m
  induction m with
  | nil => intro t d; simp [insertSN, lookupSN]
  | cons p rest ih =>
    intro t d
    obtain ⟨k, v⟩ := p
    by_cases hk : k = t
    · simp [insertSN, lookupSN, hk]
    · simp [insertSN, lookupSN, hk, ih]

/-- C9 (amended): the registry build is idempotent for identical
descriptors — listing the same `(name, class)` pair again leaves the
registry unchanged — but when two distinct classes share a `__name__`
the dict comprehension silently keeps the last one: no conflict is
reported (the build has no error path at all). -/
theorem c9_registry_build :
    (∀ (subs : List (String × Nat)) (t : String) (d : Nat),
      serializable_complex_types (subs ++ [(t, d), (t, d)])
        = serializable_complex_types (subs ++ [(t, d)])) ∧
    (∀ (subs : List (String × Nat)) (t : String) (d1 d2 : Nat),
      lookupSN (serializable_complex_types (subs ++ [(t, d1), (t, d2)])) t
        = some d2) := by
  constructor
  · intro subs t d
    simp [serializable_complex_types, List.foldl_append, insertSN_idem]
  · intro subs t d1 d2
    simp [serializable_complex_types, List.foldl_append, lookupSN_insertSN]

/-- C9 counterexample to the claim as frozen: two distinct classes named
`"T"` (descriptors `1` and `2`): the build returns `[("T", 2)]` — the
first descriptor is silently replaced, the registry resolves `"T"` to
the later class and no conflict is ever reported (the build is total). -/
theorem c9_counterexample :
    serializable_complex_types [("T", 1), ("T", 2)] = [("T", 2)] ∧
    lookupSN (serializable_complex_types [("T", 1), ("T", 2)]) "T" ≠ some 1 :=
  ⟨rfl, by decide⟩

/-! ### Claim C10 -/

theorem jsonWalkValueOf_eq (kvs : List (Key × Doc)) :
    jsonWalkValueOf kvs =
      (match lookupKV kvs (Key.str "_value") with
       | none => .error (.keyError "_value")
       | some v => jsonWalk v) := by
  induction kvs with
  | nil => rfl
  | cons kv rest ih =>
    obtain ⟨k, v⟩ := kv
    by_cases hk : k = Key.str "_value"
    · simp [jsonWalkValueOf, lookupKV, hk]
    · simp [jsonWalkValueOf, lookupKV, hk, ih]

/-- C10 (confirmed): `StorageFormat.to_json_mapping` turns every
set/frozenset-tagged mapping into the list of its converted `"_value"`
elements, every Path-tagged mapping into its raw `"_value"` (in
particular its string), every other mapping into a plain mapping with
the dot-substitute restored in keys (`loadKey`, i.e.
`key.replace("．", ".")`) and the `"_hash"` entry removed after that,
every date into its ISO string form, lists element-wise, and all other
scalars unchanged. -/
theorem c10_to_json_mapping :
    (∀ (hd : Bool) kvs xs ys,
      (lookupKV kvs (Key.str "_type") = some (Doc.str "set")
        ∨ lookupKV kvs (Key.str "_type") = some (Doc.str "frozenset")) →
      lookupKV kvs (Key.str "_value") = some (Doc.list xs) →
      jsonWalkList xs = .ok ys →
      StorageFormat.to_json_mapping (.dict hd kvs) = .ok (.list ys)) ∧
    (∀ (hd : Bool) kvs s,
      lookupKV kvs (Key.str "_type") = some (Doc.str "Path") →
      lookupKV kvs (Key.str "_value") = some (Doc.str s) →
      StorageFormat.to_json_mapping (.dict hd kvs) = .ok (.str s)) ∧
    (∀ (hd : Bool) kvs ps,
      ¬ (lookupKV kvs (Key.str "_type") = some (Doc.str "set")
        ∨ lookupKV kvs (Key.str "_type") = some (Doc.str "frozenset")) →
      lookupKV kvs (Key.str "_type") ≠ some (Doc.str "Path") →
      jsonWalkPairs kvs = .ok ps → keyNodupB ps = true →
      StorageFormat.to_json_mapping (.dict hd kvs)
        = .ok (.dict false (eraseKey ps (Key.str "_hash")))) ∧
    (∀ s, loadKey (Key.str s) = .ok (Key.str (pyReplaceChar '．' '.' s))) ∧
    (∀ y m d, StorageFormat.to_json_mapping (.date y m d)
      = .ok (.str (dateStr y m d))) ∧
    (∀ xs ys, jsonWalkList xs = .ok ys →
      StorageFormat.to_json_mapping (.list xs) = .ok (.list ys)) ∧
    (StorageFormat.to_json_mapping .null = .ok .null) ∧
    (∀ b, StorageFormat.to_json_mapping (.bool b) = .ok (.bool b)) ∧
    (∀ n, StorageFormat.to_json_mapping (.int n) = .ok (.int n)) ∧
    (∀ s, StorageFormat.to_json_mapping (.str s) = .ok (.str s)) := by
  refine ⟨?_, ?_, ?_, fun s => rfl, fun y m d => rfl, ?_,
    rfl, fun b => rfl, fun n => rfl, fun s => rfl⟩
  · intro hd kvs xs ys htag hval hys
    simp only [StorageFormat.to_json_mapping, jsonWalk, if_pos htag]
    rw [jsonWalkValueOf_eq, hval]
    simp only [jsonWalk, hys, exceptBind_ok]
    simp [pyList, pyIter]
  · intro hd kvs s htag hval
    have hns : ¬ (lookupKV kvs (Key.str "_type") = some (Doc.str "set")
        ∨ lookupKV kvs (Key.str "_type") = some (Doc.str "frozenset")) := by
      rw [htag]
      simp
    simp only [StorageFormat.to_json_mapping, jsonWalk, if_neg hns,
      if_pos htag, hval]
  · intro hd kvs ps hns hnp hps hnd
    simp only [StorageFormat.to_json_mapping, jsonWalk, if_neg hns,
      if_neg hnp]
    rw [jsonWalkKVs_eq_pairs, hps]
    simp only [exceptMap_ok, exceptBind_ok]
    rw [foldl_insertKV ps [] (by simp) hnd]
    simp
  · intro xs ys h
    simp [StorageFormat.to_json_mapping, jsonWalk, h]

/-- C10 witness: the three mapping branches, a date and a scalar,
evaluated concretely. -/
theorem c10_witness :
    StorageFormat.to_json_mapping
      (.dict false [(Key.str "_type", Doc.str "set"),
                    (Key.str "_value", Doc.list [Doc.int 1, Doc.int 1])])
      = .ok (.list [Doc.int 1, Doc.int 1]) ∧
    StorageFormat.to_json_mapping
      (.dict false [(Key.str "_type", Doc.str "Path"),
                    (Key.str "_value", Doc.str "/x")])
      = .ok (.str "/x") ∧
    StorageFormat.to_json_mapping
      (.dict false [(Key.str "a．b", Doc.int 3),
                    (Key.str "_hash", Doc.int 9)])
      = .ok (.dict false [(Key.str "a.b", Doc.int 3)]) ∧
    StorageFormat.to_json_mapping (.date 2024 1 5)
      = .ok (.str (dateStr 2024 1 5)) :=
  ⟨c10_to_json_mapping.1 false
      [(Key.str "_type", Doc.str "set"),
       (Key.str "_value", Doc.list [Doc.int 1, Doc.int 1])]
      [Doc.int 1, Doc.int 1] [Doc.int 1, Doc.int 1] (Or.inl rfl) rfl rfl,
   c10_to_json_mapping.2.1 false
      [(Key.str "_type", Doc.str "Path"),
       (Key.str "_value", Doc.str "/x")] "/x" rfl rfl,
   c10_to_json_mapping.2.2.1 false
      [(Key.str "a．b", Doc.int 3), (Key.str "_hash", Doc.int 9)]
      [(Key.str "a.b", Doc.int 3), (Key.str "_hash", Doc.int 9)]
      (by decide) (by decide) rfl rfl,
   c10_to_json_mapping.2.2.2.2.1 2024 1 5⟩

/-! ### Raw → Object: unknown tags pass through (C4) -/

theorem roWalkKVs_keys {reg : TypeRegistry} :
    ∀ {kvs kvs2 : List (Key × Doc)}, roWalkKVs reg kvs = .ok kvs2 →
    kvs2.map Prod.fst = kvs.map Prod.fst := by
  intro kvs
  induction kvs with
  | nil =>
    intro kvs2 h
    simp only [roWalkKVs, Except.ok.injEq] at h
    rw [← h]
  | cons kv rest ih =>
    intro kvs2 h
    obtain ⟨k, v⟩ := kv
    simp only [roWalkKVs] at h
    cases hv : roWalk reg v with
    | error e => rw [hv] at h; simp at h
    | ok v2 =>
      rw [hv] at h
      cases hr : roWalkKVs reg rest with
      | error e => rw [hr] at h; simp at h
      | ok rest2 =>
        rw [hr] at h
        simp only [exceptBind_ok, Except.ok.injEq] at h
        rw [← h]
        simp [ih hr]

theorem roWalkKVs_lookup {reg : TypeRegistry} :
    ∀ {kvs kvs2 : List (Key × Doc)}, roWalkKVs reg kvs = .ok kvs2 →
    ∀ k, (lookupKV kvs k = none → lookupKV kvs2 k = none) ∧
      (∀ v, lookupKV kvs k = some v →
        ∃ v2, roWalk reg v = .ok v2 ∧ lookupKV kvs2 k = some v2) := by
  intro kvs
  induction kvs with
  | nil =>
    intro kvs2 h k
    simp only [roWalkKVs, Except.ok.injEq] at h
    rw [← h]
    exact ⟨fun _ => rfl, fun v hv => by simp [lookupKV] at hv⟩
  | cons kv rest ih =>
    intro kvs2 h k
    obtain ⟨k1, v1⟩ := kv
    simp only [roWalkKVs] at h
    cases hv : roWalk reg v1 with
    | error e => rw [hv] at h; simp at h
    | ok v2 =>
      rw [hv] at h
      cases hr : roWalkKVs reg rest with
      | error e => rw [hr] at h; simp at h
      | ok rest2 =>
        rw [hr] at h
        simp only [exceptBind_ok, Except.ok.injEq] at h
        rw [← h]
        by_cases hk : k1 = k
        · constructor
          · intro hn
            rw [lookupKV, if_pos hk] at hn
            simp at hn
          · intro v hv2
            rw [lookupKV, if_pos hk] at hv2
            simp only [Option.some.injEq] at hv2
            exact ⟨v2, by rw [← hv2]; exact hv, by rw [lookupKV, if_pos hk]⟩
        · constructor
          · intro hn
            rw [lookupKV, if_neg hk] at hn
            rw [lookupKV, if_neg hk]
            exact (ih hr k).1 hn
          · intro v hv2
            rw [lookupKV, if_neg hk] at hv2
            obtain ⟨v3, e1, e2⟩ := (ih hr k).2 v hv2
            exact ⟨v3, e1, by rw [lookupKV, if_neg hk]; exact e2⟩

theorem roWalk_dict_shape {reg : TypeRegistry} {hd : Bool}
    {kvs : List (Key × Doc)} {r : Doc}
    (h : roWalk reg (.dict hd kvs) = .ok r) :
    (∃ kvs2, r = .dict false kvs2) ∨ (∃ t fs, r = .inst t fs) := by
  simp only [roWalk] at h
  cases hr : roWalkKVs reg kvs with
  | error e => rw [hr] at h; simp at h
  | ok res =>
    rw [hr] at h
    simp only [exceptBind_ok] at h
    split at h
    · split at h
      · rw [from_dict] at h
        cases hsf : stringFields
            (eraseKey (eraseKey res (Key.str "_type")) (Key.str "_hash")) with
        | error e => rw [hsf] at h; simp at h
        | ok fs =>
          rw [hsf] at h
          simp only [exceptBind_ok, Except.ok.injEq] at h
          exact Or.inr ⟨_, fs, h.symm⟩
      · simp only [Except.ok.injEq] at h
        exact Or.inl ⟨res, h.symm⟩
    · simp only [Except.ok.injEq] at h
      exact Or.inl ⟨res, h.symm⟩

theorem roWalk_eq_str {reg : TypeRegistry} {v : Doc} {s : String}
    (h : roWalk reg v = .ok (.str s)) : v = .str s := by
  cases v with
  | str s2 => simpa [roWalk] using h
  | null => simp [roWalk] at h
  | bool b => simp [roWalk] at h
  | int n => simp [roWalk] at h
  | date y m dd => simp [roWalk] at h
  | path p => simp [roWalk] at h
  | symbol l => simp [roWalk] at h
  | inst t fs => simp [roWalk] at h
  | list xs => cases hr : roWalkList reg xs <;> simp [roWalk, hr] at h
  | set xs =>
    cases hr : roWalkList reg xs with
    | error e => simp [roWalk, hr] at h
    | ok ys =>
      simp only [roWalk, hr, exceptBind_ok, pySetL] at h
      split at h <;> simp at h
  | fset xs =>
    cases hr : roWalkList reg xs with
    | error e => simp [roWalk, hr] at h
    | ok ys =>
      simp only [roWalk, hr, exceptBind_ok, pyFrozensetL] at h
      split at h <;> simp at h
  | dict hd kvs =>
    rcases roWalk_dict_shape h with ⟨kvs2, e⟩ | ⟨t, fs, e⟩ <;> simp at e

/-! ### Claim C4 -/

/-- C4 (confirmed): `RawFormat.to_obj_format` leaves a mapping whose
`"_type"` entry is not a registered tag (or absent, or not a string) as
a plain mapping — same keys in the same order, values recursively
converted, no exception raised; only a mapping whose walked `"_type"`
entry is a registered tag string is handed to the registered type's
`from_dict`, with `"_type"` and `"_hash"` stripped first. -/
theorem c4_unknown_tag_passthrough :
    (∀ (reg : TypeRegistry) (hd : Bool) kvs kvs2,
      roWalkKVs reg kvs = .ok kvs2 →
      (∀ t, lookupKV kvs (Key.str "_type") = some (Doc.str t) →
        reg.tags.contains t = false) →
      RawFormat.to_obj_format reg (.dict hd kvs) = .ok (.dict false kvs2) ∧
      kvs2.map Prod.fst = kvs.map Prod.fst) ∧
    (∀ (reg : TypeRegistry) (hd : Bool) kvs kvs2 t,
      roWalkKVs reg kvs = .ok kvs2 →
      lookupKV kvs2 (Key.str "_type") = some (Doc.str t) →
      reg.tags.contains t = true →
      RawFormat.to_obj_format reg (.dict hd kvs)
        = from_dict t (eraseKey (eraseKey kvs2 (Key.str "_type"))
            (Key.str "_hash"))) := by
  constructor
  · intro reg hd kvs kvs2 h hunk
    refine ⟨?_, roWalkKVs_keys h⟩
    simp only [RawFormat.to_obj_format, roWalk, h, exceptBind_ok]
    split
    · rename_i t heq
      have hl := (roWalkKVs_lookup h (Key.str "_type")).2
      cases horig : lookupKV kvs (Key.str "_type") with
      | none =>
        have := (roWalkKVs_lookup h (Key.str "_type")).1 horig
        rw [this] at heq
        simp at heq
      | some v =>
        obtain ⟨v2, hw, hl2⟩ := hl v horig
        rw [hl2] at heq
        simp only [Option.some.injEq] at heq
        rw [heq] at hw
        have hv : v = Doc.str t := roWalk_eq_str hw
        rw [hv] at horig
        rw [if_neg (by rw [hunk t horig]; simp)]
    · rfl
  · intro reg hd kvs kvs2 t h hlook hreg
    simp only [RawFormat.to_obj_format, roWalk, h, exceptBind_ok]
    split
    · rename_i t2 heq
      rw [hlook] at heq
      simp only [Option.some.injEq, Doc.str.injEq] at heq
      rw [← heq, if_pos hreg]
    · rename_i hno
      exact absurd hlook (hno t)

/-- C4 witness: a mapping with the unknown tag `"Gadget"` (carrying
also `"_hash"` and another field) passes through unchanged under the
`Widget` registry and raises nothing; a `"Widget"`-tagged mapping is
decoded into the instance with `"_type"`/`"_hash"` stripped. -/
theorem c4_witness :
    (RawFormat.to_obj_format regWidget
      (.dict false [(Key.str "_type", Doc.str "Gadget"),
                    (Key.str "_hash", Doc.int 3),
                    (Key.str "n", Doc.int 1)])
      = .ok (.dict false [(Key.str "_type", Doc.str "Gadget"),
                          (Key.str "_hash", Doc.int 3),
                          (Key.str "n", Doc.int 1)])) ∧
    (RawFormat.to_obj_format regWidget
      (.dict true [(Key.str "_type", Doc.str "Widget"),
                   (Key.str "_hash", Doc.int 7),
                   (Key.str "n", Doc.int 1)])
      = .ok (.inst "Widget" [("n", Doc.int 1)])) :=
  ⟨(c4_unknown_tag_passthrough.1 regWidget false
      [(Key.str "_type", Doc.str "Gadget"),
       (Key.str "_hash", Doc.int 3),
       (Key.str "n", Doc.int 1)]
      [(Key.str "_type", Doc.str "Gadget"),
       (Key.str "_hash", Doc.int 3),
       (Key.str "n", Doc.int 1)] rfl
      (by intro t ht; simp [lookupKV] at ht; rw [← ht]; rfl)).1,
   c4_unknown_tag_passthrough.2 regWidget true
      [(Key.str "_type", Doc.str "Widget"),
       (Key.str "_hash", Doc.int 7),
       (Key.str "n", Doc.int 1)]
      [(Key.str "_type", Doc.str "Widget"),
       (Key.str "_hash", Doc.int 7),
       (Key.str "n", Doc.int 1)] "Widget" rfl rfl rfl⟩

/-! ### Object → Raw → Object round trip (C5) -/

theorem eraseKey_not_mem :
    ∀ {l : List (Key × Doc)} {k : Key}, k ∉ l.map Prod.fst →
    eraseKey l k = l := by
  intro l
  induction l with
  | nil => intro k _; rfl
  | cons p rest ih =>
    intro k h
    obtain ⟨k0, v0⟩ := p
    simp only [List.map_cons, List.mem_cons, not_or] at h
    rw [eraseKey, if_neg (fun e => h.1 e.symm), ih h.2]

theorem stringFields_map :
    ∀ fs : List (String × Doc),
    stringFields (fs.map (fun p => (Key.str p.1, p.2))) = .ok fs := by
  intro fs
  induction fs with
  | nil => rfl
  | cons p rest ih =>
    obtain ⟨k, v⟩ := p
    simp [stringFields, ih]

theorem objSetElemOk_hashable (reg : TypeRegistry) :
    ∀ d, objSetElemOk reg d = true → pyHashable reg d = true := by
  refine doc_strongInd _ ?_
  intro d ih h
  cases d <;> simp_all [objSetElemOk, pyHashable]
  case fset xs =>
    refine pyHashableList_of_forall (fun x hx => ?_)
    have hx2 := objSetElemsOkList_forall h x hx
    have hs : sizeOf x < 1 + sizeOf xs := by
      have := sizeOf_lt_of_mem_list hx
      omega
    exact ih x hs hx2

/-- Round trip of a list of documents through `to_raw` / `to_object`,
with the element facts the set cases need. -/
theorem orWalkList_ro {reg : TypeRegistry} :
    ∀ {xs : List Doc},
    (∀ x ∈ xs, ∃ r, orWalk reg x = .ok r ∧ roWalk reg r = .ok x ∧
      (objSetElemOk reg x = true → pyHashable reg r = true)) →
    ∃ rs, orWalkList reg xs = .ok rs ∧ roWalkList reg rs = .ok xs ∧
      (objSetElemsOkList reg xs = true → pyHashableList reg rs = true) ∧
      (∀ r2 ∈ rs, ∃ x2 ∈ xs, roWalk reg r2 = .ok x2) ∧
      (nodupB xs = true → nodupB rs = true) := by
  intro xs
  induction xs with
  | nil => exact fun _ => ⟨[], rfl, rfl, fun _ => rfl, by simp, fun _ => rfl⟩
  | cons x xs ih =>
    intro h
    obtain ⟨r, hor, hro, hha⟩ := h x (by simp)
    obtain ⟨rs, hors, hros, hhas, hmem, hnd⟩ :=
      ih (fun z hz => h z (by simp [hz]))
    refine ⟨r :: rs, ?_, ?_, ?_, ?_, ?_⟩
    · simp [orWalkList, hor, hors]
    · simp [roWalkList, hro, hros]
    · intro he
      rw [objSetElemsOkList, Bool.and_eq_true] at he
      rw [pyHashableList, Bool.and_eq_true]
      exact ⟨hha he.1, hhas he.2⟩
    · intro r2 hr2
      rcases List.mem_cons.mp hr2 with rfl | m
      · exact ⟨x, by simp, hro⟩
      · obtain ⟨x2, hx2, e⟩ := hmem r2 m
        exact ⟨x2, by simp [hx2], e⟩
    · intro hn
      obtain ⟨hx, hxs⟩ := nodupB_cons_iff.mp hn
      rw [nodupB, Bool.and_eq_true]
      refine ⟨?_, hnd hxs⟩
      simp only [Bool.not_eq_eq_eq_not, Bool.not_true]
      rw [contains_false_iff]
      intro hm
      obtain ⟨x2, hx2, e⟩ := hmem r hm
      have : x = x2 := by
        have := hro.symm.trans e
        simpa using this
      exact hx (this ▸ hx2)

/-- Round trip of a dict's entries: keys are untouched, values round
trip. -/
theorem orWalkKVs_ro {reg : TypeRegistry} :
    ∀ {kvs : List (Key × Doc)},
    (∀ kv ∈ kvs, ∃ r, orWalk reg kv.2 = .ok r ∧ roWalk reg r = .ok kv.2) →
    ∃ rs, orWalkKVs reg kvs = .ok rs ∧ roWalkKVs reg rs = .ok kvs := by
  intro kvs
  induction kvs with
  | nil => exact fun _ => ⟨[], rfl, rfl⟩
  | cons kv kvs ih =>
    intro h
    obtain ⟨k, v⟩ := kv
    obtain ⟨r, hor, hro⟩ := h (k, v) (by simp)
    obtain ⟨rs, hors, hros⟩ := ih (fun z hz => h z (by simp [hz]))
    refine ⟨(k, r) :: rs, ?_, ?_⟩
    · simp [orWalkKVs, hor, hors]
    · simp [roWalkKVs, hro, hros]

/-- Round trip of an instance's walked field mapping. -/
theorem orWalkSFs_ro {reg : TypeRegistry} :
    ∀ {fs : List (String × Doc)},
    (∀ kv ∈ fs, ∃ r, orWalk reg kv.2 = .ok r ∧ roWalk reg r = .ok kv.2) →
    ∃ wf, orWalkSFs reg fs = .ok wf ∧ wf.map Prod.fst = fs.map Prod.fst ∧
      roWalkKVs reg (wf.map (fun p => (Key.str p.1, p.2)))
        = .ok (fs.map (fun p => (Key.str p.1, p.2))) := by
  intro fs
  induction fs with
  | nil => exact fun _ => ⟨[], rfl, rfl, rfl⟩
  | cons kv fs ih =>
    intro h
    obtain ⟨k, v⟩ := kv
    obtain ⟨r, hor, hro⟩ := h (k, v) (by simp)
    obtain ⟨wf, hors, hkeys, hros⟩ := ih (fun z hz => h z (by simp [hz]))
    refine ⟨(k, r) :: wf, ?_, ?_, ?_⟩
    · simp [orWalkSFs, hor, hors]
    · simp [hkeys]
    · simp [roWalkKVs, hro, hros]

theorem obj_roundtrip (reg : TypeRegistry) :
    ∀ d, objWF reg d = true →
    ∃ r, orWalk reg d = .ok r ∧ roWalk reg r = .ok d ∧
      (objSetElemOk reg d = true → pyHashable reg r = true) := by
  refine doc_strongInd _ ?_
  intro d ih h
  cases d with
  | null => exact ⟨.null, rfl, rfl, fun _ => rfl⟩
  | bool b => exact ⟨.bool b, rfl, rfl, fun _ => rfl⟩
  | int n => exact ⟨.int n, rfl, rfl, fun _ => rfl⟩
  | str s => exact ⟨.str s, rfl, rfl, fun _ => rfl⟩
  | date y m dd => exact ⟨.date y m dd, rfl, rfl, fun _ => rfl⟩
  | path p => exact ⟨.path p, rfl, rfl, fun _ => rfl⟩
  | symbol l => exact ⟨.symbol l, rfl, rfl, fun _ => rfl⟩
  | list xs =>
    rw [objWF] at h
    have hall : ∀ x ∈ xs, ∃ r, orWalk reg x = .ok r ∧ roWalk reg r = .ok x ∧
        (objSetElemOk reg x = true → pyHashable reg r = true) := by
      intro x hx
      refine ih x ?_ (objWFList_forall h x hx)
      have := sizeOf_lt_of_mem_list hx
      simp
      omega
    obtain ⟨rs, hors, hros, _, _, _⟩ := orWalkList_ro hall
    exact ⟨.list rs, by simp [orWalk, hors], by simp [roWalk, hros],
      fun he => by simp [objSetElemOk] at he⟩
  | set xs =>
    rw [objWF] at h
    simp only [Bool.and_eq_true] at h
    obtain ⟨⟨hl, hnd⟩, hel⟩ := h
    have hall : ∀ x ∈ xs, ∃ r, orWalk reg x = .ok r ∧ roWalk reg r = .ok x ∧
        (objSetElemOk reg x = true → pyHashable reg r = true) := by
      intro x hx
      refine ih x ?_ (objWFList_forall hl x hx)
      have := sizeOf_lt_of_mem_list hx
      simp
      omega
    obtain ⟨rs, hors, hros, hhas, hmem, hndr⟩ := orWalkList_ro hall
    have hhrs : pyHashableList reg rs = true := hhas hel
    have hnrs : nodupB rs = true := hndr hnd
    have hhxs : pyHashableList reg xs = true :=
      pyHashableList_of_forall
        (fun x hx => objSetElemOk_hashable reg x (objSetElemsOkList_forall hel x hx))
    refine ⟨.set rs, ?_, ?_, fun he => by simp [objSetElemOk] at he⟩
    · simp [orWalk, hors, pySetL, hhrs, pyDedup_eq_self hnrs]
    · simp [roWalk, hros, pySetL, hhxs, pyDedup_eq_self hnd]
  | fset xs =>
    rw [objWF] at h
    simp only [Bool.and_eq_true] at h
    obtain ⟨⟨hl, hnd⟩, hel⟩ := h
    have hall : ∀ x ∈ xs, ∃ r, orWalk reg x = .ok r ∧ roWalk reg r = .ok x ∧
        (objSetElemOk reg x = true → pyHashable reg r = true) := by
      intro x hx
      refine ih x ?_ (objWFList_forall hl x hx)
      have := sizeOf_lt_of_mem_list hx
      simp
      omega
    obtain ⟨rs, hors, hros, hhas, hmem, hndr⟩ := orWalkList_ro hall
    have hhrs : pyHashableList reg rs = true := hhas hel
    have hnrs : nodupB rs = true := hndr hnd
    have hhxs : pyHashableList reg xs = true :=
      pyHashableList_of_forall
        (fun x hx => objSetElemOk_hashable reg x (objSetElemsOkList_forall hel x hx))
    refine ⟨.fset rs, ?_, ?_, ?_⟩
    · simp [orWalk, hors, pyFrozensetL, hhrs, pyDedup_eq_self hnrs]
    · simp [roWalk, hros, pyFrozensetL, hhxs, pyDedup_eq_self hnd]
    · intro he
      rw [objSetElemOk] at he
      simpa [pyHashable] using hhas he
  | dict hd kvs =>
    rw [objWF] at h
    simp only [Bool.and_eq_true] at h
    obtain ⟨⟨⟨hhd, hknd⟩, htag⟩, hvals⟩ := h
    have hhd2 : hd = false := by simpa using hhd
    subst hhd2
    have hall : ∀ kv ∈ kvs, ∃ r, orWalk reg kv.2 = .ok r ∧
        roWalk reg r = .ok kv.2 := by
      intro kv hkv
      refine (ih kv.2 ?_ (objWFKVs_forall hvals kv hkv)).imp
        (fun r hr => ⟨hr.1, hr.2.1⟩)
      have := sizeOf_snd_lt_of_mem_kvs (k := kv.1) (v := kv.2) hkv
      simp
      omega
    obtain ⟨rs, hors, hros⟩ := orWalkKVs_ro hall
    refine ⟨.dict false rs, by simp [orWalk, hors], ?_,
      fun he => by simp [objSetElemOk] at he⟩
    simp only [roWalk, hros, exceptBind_ok]
    rw [objTagOkB] at htag
    split
    · rename_i t heq
      rw [heq] at htag
      simp only [Bool.not_eq_eq_eq_not, Bool.not_true] at htag
      rw [if_neg (by rw [htag]; simp)]
    · rfl
  | inst t fields =>
    rw [objWF] at h
    simp only [Bool.and_eq_true] at h
    obtain ⟨⟨⟨⟨hreg, hsnd⟩, hty⟩, hha⟩, hvals⟩ := h
    have htym : "_type" ∉ fields.map Prod.fst := by
      have := hty
      simp only [Bool.not_eq_eq_eq_not, Bool.not_true] at this
      exact contains_false_iff.mp this
    have hham : "_hash" ∉ fields.map Prod.fst := by
      have := hha
      simp only [Bool.not_eq_eq_eq_not, Bool.not_true] at this
      exact contains_false_iff.mp this
    have hall : ∀ kv ∈ fields, ∃ r, orWalk reg kv.2 = .ok r ∧
        roWalk reg r = .ok kv.2 := by
      intro kv hkv
      refine (ih kv.2 ?_ (objWFSFs_forall hvals kv hkv)).imp
        (fun r hr => ⟨hr.1, hr.2.1⟩)
      have := sizeOf_snd_lt_of_mem_sfs (k := kv.1) (v := kv.2) hkv
      simp
      omega
    obtain ⟨wf, hors, hkeys, hros⟩ := orWalkSFs_ro hall
    have hndw : sfNodupB wf = true := sfNodupB_of_keys_eq hkeys hsnd
    have hmem : ∀ p ∈ wf, p.1 ∈ fields.map Prod.fst := by
      intro p hp
      rw [← hkeys]
      exact List.mem_map_of_mem Prod.fst hp
    cases hh : reg.instHashable t with
    | true =>
      have hfr1 : ∀ p ∈ wf, Key.str p.1
          ∉ ([(Key.str "_type", Doc.str t),
              (Key.str "_hash", Doc.int (reg.instHash t fields))].map Prod.fst) := by
        intro p hp
        have h1 : p.1 ≠ "_type" := fun e => htym (e ▸ hmem p hp)
        have h2 : p.1 ≠ "_hash" := fun e => hham (e ▸ hmem p hp)
        simp [h1, h2]
      have hor : orWalk reg (.inst t fields) =
          .ok (.dict true ((Key.str "_type", Doc.str t)
            :: (Key.str "_hash", Doc.int (reg.instHash t fields))
            :: wf.map (fun p => (Key.str p.1, p.2)))) := by
        simp only [orWalk, hors, exceptBind_ok, hh, if_true]
        rw [mergeSFs_eq_append wf _ hfr1 hndw]
        simp
      refine ⟨_, hor, ?_, fun _ => by simp [pyHashable, lookupKV]⟩
      have hstep : roWalkKVs reg ((Key.str "_type", Doc.str t)
            :: (Key.str "_hash", Doc.int (reg.instHash t fields))
            :: wf.map (fun p => (Key.str p.1, p.2)))
          = .ok ((Key.str "_type", Doc.str t)
            :: (Key.str "_hash", Doc.int (reg.instHash t fields))
            :: fields.map (fun p => (Key.str p.1, p.2))) := by
        simp [roWalkKVs, roWalk, hros]
      simp only [roWalk, hstep, exceptBind_ok, lookupKV, if_pos rfl]
      simp only [reduceIte, hreg, from_dict, eraseKey, stringFields_map,
        exceptBind_ok]
    | false =>
      have hfr2 : ∀ p ∈ wf, Key.str p.1
          ∉ ([(Key.str "_type", Doc.str t)].map Prod.fst) := by
        intro p hp
        have h1 : p.1 ≠ "_type" := fun e => htym (e ▸ hmem p hp)
        simp [h1]
      have hor : orWalk reg (.inst t fields) =
          .ok (.dict false ((Key.str "_type", Doc.str t)
            :: wf.map (fun p => (Key.str p.1, p.2)))) := by
        simp only [orWalk, hors, exceptBind_ok, hh, Bool.false_eq_true,
          if_false]
        rw [mergeSFs_eq_append wf _ hfr2 hndw]
        simp
      refine ⟨_, hor, ?_, ?_⟩
      · have hstep : roWalkKVs reg ((Key.str "_type", Doc.str t)
              :: wf.map (fun p => (Key.str p.1, p.2)))
            = .ok ((Key.str "_type", Doc.str t)
              :: fields.map (fun p => (Key.str p.1, p.2))) := by
          simp [roWalkKVs, roWalk, hros]
        simp only [roWalk, hstep, exceptBind_ok, lookupKV, if_pos rfl]
        simp only [reduceIte, hreg, from_dict, eraseKey]
        have herase : eraseKey (fields.map (fun p => (Key.str p.1, p.2)))
            (Key.str "_hash") = fields.map (fun p => (Key.str p.1, p.2)) := by
          refine eraseKey_not_mem ?_
          intro m
          obtain ⟨q, hq, e⟩ := List.mem_map.mp m
          obtain ⟨p, hp, e2⟩ := List.mem_map.mp hq
          rw [← e2] at e
          simp only [Key.str.injEq] at e
          exact hham (e ▸ List.mem_map_of_mem Prod.fst hp)
        rw [herase, stringFields_map]
        rfl
      · intro he
        rw [objSetElemOk] at he
        rw [hh] at he
        simp at he

/-! ### Claim C5 -/

/-- C5 (confirmed): converting an Object-stage document to Raw
(`ObjFormat.to_raw_format`) and back (`RawFormat.to_obj_format`)
reproduces the document exactly — in particular every domain instance
`x` with a registered tag, wherever it occurs (in mappings, lists, or
sets), comes back equal to `x`.  The well-formedness hypothesis asks
what real Object-stage documents provide: registered tags for all
instances, unique keys and field names, reserved names not used as
field names, plain dicts without a registered `"_type"` entry of their
own, and duplicate-free sets of elements that stay hashable across the
hop. -/
theorem c5_obj_raw_roundtrip (reg : TypeRegistry) (d : Doc)
    (h : objWF reg d = true) :
    (ObjFormat.to_raw_format reg d).bind (RawFormat.to_obj_format reg) = .ok d := by
  obtain ⟨r, hor, hro, _⟩ := obj_roundtrip reg d h
  simp only [ObjFormat.to_raw_format, RawFormat.to_obj_format, hor]
  exact hro

/-- C5 witness: a document holding a `Widget` instance in a mapping and
another inside a set round-trips under the `Widget` registry. -/
theorem c5_witness :
    objWF regWidget
      (.dict false [(Key.str "w", Doc.inst "Widget" [("n", Doc.int 3)]),
                    (Key.str "s", Doc.set [Doc.inst "Widget" [("m", Doc.int 1)],
                                           Doc.int 2])]) = true ∧
    (ObjFormat.to_raw_format regWidget
      (.dict false [(Key.str "w", Doc.inst "Widget" [("n", Doc.int 3)]),
                    (Key.str "s", Doc.set [Doc.inst "Widget" [("m", Doc.int 1)],
                                           Doc.int 2])])).bind
      (RawFormat.to_obj_format regWidget)
      = .ok
      (.dict false [(Key.str "w", Doc.inst "Widget" [("n", Doc.int 3)]),
                    (Key.str "s", Doc.set [Doc.inst "Widget" [("m", Doc.int 1)],
                                           Doc.int 2])]) :=
  ⟨rfl, c5_obj_raw_roundtrip regWidget
    (.dict false [(Key.str "w", Doc.inst "Widget" [("n", Doc.int 3)]),
                  (Key.str "s", Doc.set [Doc.inst "Widget" [("m", Doc.int 1)],
                                         Doc.int 2])]) rfl⟩
